import Mathlib

/-!
# lightlang: a shallow embedding of the bytecode pipeline

This file embeds the core of the lightlang implementation (builder.go,
vm.go, and the bytecode serializer) in Lean 4 and proves properties of the
embedding.

Modelling conventions, used throughout:

* Go `interface{}` values that flow through the pipeline (constant values,
  instruction arguments, VM stack slots) are modelled by the inductive
  `GoVal`, one constructor per dynamic type that the code can store there.
  Go interface equality requires identical dynamic types, so `vint 0` and
  `vfloat 0` are distinct values, exactly as in Go.
* Go `float64` is modelled by `ℚ`.  Every finite float64 is a rational, and
  the map is injective, so exact tests in the source (`bf == 0`,
  `arg == float64(int32(arg))`, interface equality) are translated exactly.
  IEEE rounding of arithmetic results is abstracted (the results of `+`,
  `-`, `*`, `/` are exact rationals); no theorem below depends on the
  numeric value of an arithmetic result.  NaN and infinities are not
  representable; they cannot be produced by the embedded operations
  (division by zero is caught before dividing).
* Go `string` is modelled as `List ℕ`, its byte sequence.
* The serialized byte stream is a `List BItem`: ordinary bytes, plus one
  atomic item for the 8-byte little-endian float64 payload written by
  `binary.Write` (whose byte-level round trip is exact in Go, and which no
  claim inspects internally).  All integer encodings (varuints, the raw
  int32 block, length bytes) are modelled byte by byte.
-/

namespace LightLang

/-- Byte sequence of an ASCII Lean string, used for Go string literals. -/
def strBytes (s : String) : List ℕ := s.toList.map Char.toNat

/-- Dynamic Go values stored in `interface{}` slots of the pipeline:
constant-pool values, instruction arguments, VM stack slots, globals.
`varr` is `[]interface{}` and `vmap` is `map[string]interface{}` with
insertion-ordered association lists (lookup order is irrelevant for maps). -/
inductive GoVal where
  | vnil : GoVal
  | vfloat (q : ℚ) : GoVal
  | vint (n : ℤ) : GoVal
  | vbool (b : Bool) : GoVal
  | vstr (s : List ℕ) : GoVal
  | varr (elems : List GoVal) : GoVal
  | vmap (entries : List (List ℕ × GoVal)) : GoVal
deriving Repr

open GoVal

/-- `type Instruction struct { Op OpCode; Arg interface{}; Line int }`
(builder.go).  Opcodes are the consecutive byte values of the `OpCode`
enumeration; `arg = vnil` models a nil `interface{}` argument. -/
structure Instruction where
  op : ℕ
  arg : GoVal
  line : ℕ
deriving Repr

/-- `type Constant struct { Value interface{}; Type string }` (builder.go). -/
structure Constant where
  value : GoVal
  type : String
deriving Repr

/-! Opcode numbering from builder.go (`OpConstant OpCode = iota`, ...). -/

def OpConstant : ℕ := 0
def OpAdd : ℕ := 1
def OpSub : ℕ := 2
def OpMul : ℕ := 3
def OpDiv : ℕ := 4
def OpCmpEq : ℕ := 5
def OpCmpNe : ℕ := 6
def OpCmpLt : ℕ := 7
def OpCmpLte : ℕ := 8
def OpCmpGt : ℕ := 9
def OpCmpGte : ℕ := 10
def OpPop : ℕ := 11
def OpSetGlobal : ℕ := 12
def OpGetGlobal : ℕ := 13
def OpSetLocal : ℕ := 14
def OpGetLocal : ℕ := 15
def OpMakeFunc : ℕ := 16
def OpCall : ℕ := 17
def OpCallIndirect : ℕ := 18
def OpReturn : ℕ := 19
def OpNop : ℕ := 20
def OpJump : ℕ := 21
def OpJumpIfFalse : ℕ := 22
def OpTable : ℕ := 23
def OpArray : ℕ := 24
def OpSetIndex : ℕ := 25
def OpGetIndex : ℕ := 26
def OpNot : ℕ := 27
def OpHalt : ℕ := 28

/-! ## Serialized stream items -/

/-- One item of the serialized byte stream: a plain byte (always `< 256`
when produced by the writer), or the atomic 8-byte little-endian float64
payload written by `binary.Write(bw.writer, binary.LittleEndian, fval)`. -/
inductive BItem where
  | byte (b : ℕ) : BItem
  | f64 (q : ℚ) : BItem
deriving Repr, DecidableEq

/-! ## Integer helpers mirroring Go conversions -/

/-- Go's `int8(uint8 b)` reinterpretation: bytes `128..255` become
negative. -/
def int8OfByte (b : ℕ) : ℤ := if b < 128 then (b : ℤ) else (b : ℤ) - 256

/-- Go's `uint8(int8 v)` two's-complement byte of an integer. -/
def byteOfInt (v : ℤ) : ℕ := (v % 256).toNat

/-- Go's `int32(v)` conversion of an integer (wraparound). -/
def toInt32 (n : ℤ) : ℤ := (n + 2 ^ 31) % 2 ^ 32 - 2 ^ 31

/-- Go's truncation-toward-zero conversion `int(f)` of a float64 value. -/
def goTrunc (q : ℚ) : ℤ := Int.tdiv q.num (q.den : ℤ)

/-- The test `arg == float64(int32(arg))` of the bytecode writer: the
float64 value is an integer representable in `int32`. -/
def isInt32Float (q : ℚ) : Prop := q.den = 1 ∧ -2 ^ 31 ≤ q.num ∧ q.num < 2 ^ 31

instance (q : ℚ) : Decidable (isInt32Float q) := by
  unfold isInt32Float; infer_instance

/-! ## Writer primitives (BytecodeWriter, src/unnamed/part_001) -/

/-- `writeVarUint`: 7 bits per byte, little-endian groups, high bit set on
all but the last byte.  `uint8(val) | 0x80` equals `val % 128 + 128`. -/
def writeVarUint (v : ℕ) : List ℕ :=
  if h : v < 128 then [v]
  else (v % 128 + 128) :: writeVarUint (v / 128)
decreasing_by exact Nat.div_lt_self (by omega) (by omega)

/-- `writeVarUint16`: one byte when the value is below `0x80`; otherwise
`uint8(val) | 0x80` followed by `uint8(val >> 7)`.  The second byte keeps
only 8 bits of `val >> 7`, exactly as the `uint8` conversion does. -/
def writeVarUint16 (v : ℕ) : List ℕ :=
  if v < 128 then [v]
  else [v % 128 + 128, v / 128 % 256]

/-- `writeVarInt`: zig-zag encoding of an `int32`.
`uval := uint32(val) << 1; if val < 0 { uval = ^uval }`. -/
def writeVarInt (val : ℤ) : List ℕ :=
  let u : ℕ := (val % 2 ^ 32).toNat
  let uval : ℕ := u * 2 % 2 ^ 32
  writeVarUint (if val < 0 then 2 ^ 32 - 1 - uval else uval)

/-- The 4 bytes of `binary.Write(w, binary.LittleEndian, int32(v))`. -/
def i32LEBytes (v : ℤ) : List ℕ :=
  let u : ℕ := (v % 2 ^ 32).toNat
  [u % 256, u / 256 % 256, u / 65536 % 256, u / 16777216 % 256]

/-! ## Reader primitives (BytecodeReader, src/unnamed/part_001) -/

/-- `ReadUint8`: one byte from the stream.  Hitting the float64 payload item
means the reader is byte-desynchronized into a float payload; no theorem
below exercises that case. -/
def readUint8 : List BItem → Option (ℕ × List BItem)
  | .byte b :: rest => some (b, rest)
  | _ => none

/-- `binary.Read(r, binary.LittleEndian, &val)` of a float64. -/
def readF64 : List BItem → Option (ℚ × List BItem)
  | .f64 q :: rest => some (q, rest)
  | _ => none

/-- `readVarUint` accumulation loop.  `result |= uint32(b&0x7F) << shift`:
the group is truncated to 32 bits by the `uint32` shift and or-ed into the
accumulator. -/
def readVarUintAux : List BItem → ℕ → ℕ → Option (ℕ × List BItem)
  | .byte b :: rest, shift, acc =>
      let acc' := acc ||| b % 128 * 2 ^ shift % 2 ^ 32
      if b % 256 < 128 then some (acc', rest)
      else readVarUintAux rest (shift + 7) acc'
  | _, _, _ => none

def readVarUint (items : List BItem) : Option (ℕ × List BItem) :=
  readVarUintAux items 0 0

/-- `readVarUint16`: value is the first byte when its high bit is clear;
otherwise low 7 bits of the first byte plus the whole second byte shifted
by 7. -/
def readVarUint16 (items : List BItem) : Option (ℕ × List BItem) := do
  let (first, rest) ← readUint8 items
  if first < 128 then
    pure (first, rest)
  else
    let (second, rest') ← readUint8 rest
    pure (first % 128 + second * 128, rest')

/-- Read `n` raw bytes (`io.ReadFull` into a `[]byte`). -/
def readBytes : ℕ → List BItem → Option (List ℕ × List BItem)
  | 0, items => some ([], items)
  | n + 1, .byte b :: rest => do
      let (bs, rest') ← readBytes n rest
      pure (b :: bs, rest')
  | _ + 1, _ => none

/-- Zig-zag decoding done by the reader for `ArgTypeInt`:
`val := int32(uval >> 1); if uval&1 != 0 { val = ^val }`.  The shifted value
is below `2^31`, so the `int32` conversion is the identity. -/
def zigzagDecode (uval : ℕ) : ℤ :=
  if uval % 2 = 1 then -(uval / 2 : ℕ) - 1 else (uval / 2 : ℕ)

/-! ## Constant pool serialization (WriteBytecode / ReadBytecode) -/

/-- Go's `uint32(v)` of a float64: truncation toward zero when the result
is representable; out-of-range conversions are implementation-defined in Go
(modelled as 0; the emitter only converts nonnegative instruction
indices). -/
def goFloatToUint32 (q : ℚ) : ℕ :=
  if 0 ≤ goTrunc q ∧ goTrunc q < 2 ^ 32 then (goTrunc q).toNat else 0

/-- The constant-entry writer: one type+flags byte, then the payload.
`none` models the panic of the unchecked assertion `c.Value.(string)`;
a `Type` outside the five known strings writes nothing (the Go `switch`
has no default case). -/
def writeConstant (c : Constant) : Option (List BItem) :=
  match c.type, c.value with
  | "number", vint n =>
      if -127 ≤ n ∧ n ≤ 127 then
        some [.byte 128, .byte (byteOfInt n)]
      else
        some [.byte 0, .f64 (n : ℚ)]
  | "number", vfloat q => some [.byte 0, .f64 q]
  | "number", _ => some [.byte 0, .f64 0]
  | "string", vstr s =>
      if s.length ≤ 255 then
        some (.byte 65 :: .byte s.length :: s.map .byte)
      else
        some (.byte 1 :: (writeVarUint (s.length % 2 ^ 32)).map .byte
          ++ s.map .byte)
  | "string", _ => none
  | "funcptr", v =>
      let u : ℕ := match v with
        | vfloat q => goFloatToUint32 q
        | vint n => (n % 2 ^ 32).toNat
        | _ => 0
      some (.byte 2 :: (writeVarUint u).map .byte)
  | "bool", v =>
      some [.byte 3, .byte (match v with | vbool true => 1 | _ => 0)]
  | "nil", _ => some [.byte 4]
  | _, _ => some []

def writeConstants : List Constant → Option (List BItem)
  | [] => some []
  | c :: cs => do
      let bs ← writeConstant c
      let rest ← writeConstants cs
      pure (bs ++ rest)

/-- The constant-entry reader: type is the low 3 bits, flags the high bits.
An unknown type leaves the zero value `Constant{nil, ""}` in the slot and
consumes nothing beyond the info byte. -/
def readConstant (items : List BItem) : Option (Constant × List BItem) := do
  let (info, r) ← readUint8 items
  match info % 8 with
  | 0 =>
      if info &&& 128 ≠ 0 then do
        let (v, r') ← readUint8 r
        pure (⟨vint (int8OfByte v), "number"⟩, r')
      else do
        let (q, r') ← readF64 r
        pure (⟨vfloat q, "number"⟩, r')
  | 1 => do
      let (len, r') ←
        if info &&& 64 ≠ 0 then readUint8 r else readVarUint r
      let (bs, r'') ← readBytes len r'
      pure (⟨vstr bs, "string"⟩, r'')
  | 2 => do
      let (u, r') ← readVarUint r
      pure (⟨vfloat u, "funcptr"⟩, r')
  | 3 => do
      let (v, r') ← readUint8 r
      pure (⟨vbool (v == 1), "bool"⟩, r')
  | 4 => pure (⟨vnil, "nil"⟩, r)
  | _ => pure (⟨vnil, ""⟩, r)

def readConstants : ℕ → List BItem → Option (List Constant × List BItem)
  | 0, items => some ([], items)
  | n + 1, items => do
      let (c, r) ← readConstant items
      let (cs, r') ← readConstants n r
      pure (c :: cs, r')

/-! ## Instruction serialization -/

/-- `hasArg := inst.Arg != nil`. -/
def hasArgVal : GoVal → Bool
  | vnil => false
  | _ => true

/-- The argument payload written after the line number: a two-bit kind
byte, then the data.  A float64 argument that is integer-valued within
`int32` range is written as `ArgTypeInt` followed by a raw 4-byte
little-endian `int32` (`binary.Write`); an `int` argument is written as
`ArgTypeInt` followed by a zig-zag varuint (`writeVarInt`); other non-nil,
non-float64, non-int, non-string arguments write nothing (the writer's
`default` case only handles `float64`, which the earlier case already
consumed). -/
def writeInstrArg (arg : GoVal) : List BItem :=
  match arg with
  | vfloat q =>
      if isInt32Float q then .byte 1 :: (i32LEBytes q.num).map .byte
      else [.byte 2, .f64 q]
  | vint n => .byte 1 :: (writeVarInt (toInt32 n)).map .byte
  | vstr s => .byte 3 :: (writeVarUint (s.length % 2 ^ 32)).map .byte
      ++ s.map .byte
  | _ => []

/-- One instruction: opcode byte with the high bit marking "has argument",
varuint16 line number, then the argument payload. -/
def writeInstruction (i : Instruction) : List BItem :=
  .byte (i.op % 256 ||| if hasArgVal i.arg then 128 else 0)
    :: (writeVarUint16 (i.line % 65536)).map .byte
    ++ (if hasArgVal i.arg then writeInstrArg i.arg else [])

/-- One instruction read back: the reader recovers the opcode by masking
the high bit, reads the line, and decodes the argument according to the
two-bit kind; `ArgTypeInt` is decoded as a zig-zag varuint and both
`ArgTypeConst` and `ArgTypeInt` results are stored as `float64`. -/
def readInstruction (items : List BItem) : Option (Instruction × List BItem) := do
  let (opcode, r) ← readUint8 items
  let hasArg := opcode &&& 128 ≠ 0
  let op := opcode % 128
  let (line, r1) ← readVarUint16 r
  if hasArg then do
    let (argType, r2) ← readUint8 r1
    match argType % 4 with
    | 0 => do
        let (idx, r3) ← readVarUint r2
        pure (⟨op, vfloat idx, line⟩, r3)
    | 1 => do
        let (uval, r3) ← readVarUint r2
        pure (⟨op, vfloat (zigzagDecode uval : ℤ), line⟩, r3)
    | 2 => do
        let (q, r3) ← readF64 r2
        pure (⟨op, vfloat q, line⟩, r3)
    | _ => do
        let (len, r3) ← readVarUint r2
        let (bs, r4) ← readBytes len r3
        pure (⟨op, vstr bs, line⟩, r4)
  else
    pure (⟨op, vnil, line⟩, r1)

def readInstructions : ℕ → List BItem → Option (List Instruction × List BItem)
  | 0, items => some ([], items)
  | n + 1, items => do
      let (i, r) ← readInstruction items
      let (is, r') ← readInstructions n r
      pure (i :: is, r')

/-! ## Whole-file format -/

/-- 4-byte magic `"LLBC"`. -/
def magicBytes : List ℕ := strBytes "LLBC"

/-- `(VersionMajor << 4) | (VersionMinor & 0x0F)` with major 2, minor 3. -/
def VersionCombined : ℕ := 2 * 16 + 3

/-- `WriteBytecode`: magic, version, counts, constant pool, instructions. -/
def writeBytecode (instructions : List Instruction) (constants : List Constant) :
    Option (List BItem) := do
  let cs ← writeConstants constants
  pure (magicBytes.map .byte ++ [.byte VersionCombined]
    ++ (writeVarUint (constants.length % 2 ^ 32)).map .byte
    ++ (writeVarUint (instructions.length % 2 ^ 32)).map .byte
    ++ cs ++ (instructions.map writeInstruction).flatten)

/-- `ReadBytecode`: checks the magic and the major version, reads the
counts, the constant pool, then the instructions.  All failure modes
(truncation, bad magic, incompatible major version) are `none`. -/
def readBytecode (items : List BItem) :
    Option (List Instruction × List Constant) := do
  let (magic, r) ← readBytes 4 items
  if magic ≠ magicBytes then none
  else do
    let (version, r1) ← readUint8 r
    if version / 16 ≠ 2 then none
    else do
      let (constantCount, r2) ← readVarUint r1
      let (instructionCount, r3) ← readVarUint r2
      let (constants, r4) ← readConstants constantCount r3
      let (instructions, _) ← readInstructions instructionCount r4
      pure (instructions, constants)

/-! ## The emitter (builder.go)

The AST is the node set of builder.go.  `NodeList`, `NodeListList` and
`OptNode` stand for `[]Node`, `[][]Node` and nilable `Node` fields; they
are separate inductives so that the mutual recursion of `Emit` is
structural. -/

mutual
inductive Node where
  | LiteralNode (value : GoVal) (type : String) : Node
  | VariableNode (name : String) : Node
  | UnaryOpNode (op : String) (right : Node) : Node
  | BinaryOpNode (left : Node) (op : String) (right : Node) : Node
  | AssignmentNode (name : String) (expr : Node) (isLocal : Bool)
      (index : ℤ) : Node
  | IndexAssignNode (table index value : Node) : Node
  | ExprStmtNode (expr : Node) : Node
  | CallNode (target : String) (args : NodeList) (callType : String)
      (indirectTarget : OptNode) : Node
  | TableLiteralNode (keys : List String) (values : NodeList)
      (isArray : Bool) : Node
  | IndexAccessNode (table index : Node) : Node
  | WhileLoopNode (condition : Node) (body : NodeList) : Node
  | IfNode (conditions : NodeList) (bodies : NodeListList)
      (elseBody : NodeList) : Node
  | FuncDefNode (name : String) (params : List String)
      (body : NodeList) : Node
  | AnonymousFuncNode (params : List String) (body : NodeList) : Node
  | ReturnNode (value : OptNode) : Node
  | BreakNode : Node
  | ForLoopNode (init cond update : OptNode) (body : NodeList)
      (loopVar : String) (collection : OptNode) (type : String) : Node

inductive OptNode where
  | none : OptNode
  | some (n : Node) : OptNode

inductive NodeList where
  | nil : NodeList
  | cons (head : Node) (tail : NodeList) : NodeList

inductive NodeListList where
  | nil : NodeListList
  | cons (head : NodeList) (tail : NodeListList) : NodeListList
end

def NodeList.length : NodeList → ℕ
  | .nil => 0
  | .cons _ t => t.length + 1

def NodeList.isNil : NodeList → Bool
  | .nil => true
  | .cons _ _ => false

def NodeListList.headD : NodeListList → NodeList
  | .nil => .nil
  | .cons h _ => h

def NodeListList.tailD : NodeListList → NodeListList
  | .nil => .nil
  | .cons _ t => t

/-- Association-list insertion modelling a Go map assignment `m[k] = v`. -/
def mapInsert {κ α : Type} [DecidableEq κ] :
    List (κ × α) → κ → α → List (κ × α)
  | [], k, v => [(k, v)]
  | (k', v') :: rest, k, v =>
      if k' = k then (k, v) :: rest else (k', v') :: mapInsert rest k v

/-- Association-list lookup modelling a Go map read `m[k]`. -/
def mapLookup {κ α : Type} [DecidableEq κ] :
    List (κ × α) → κ → Option α
  | [], _ => none
  | (k', v') :: rest, k => if k' = k then some v' else mapLookup rest k

/-- One `SymbolTable` node; the parent chain is kept as a list (head =
current scope) in the builder, mirroring the pointer chain plus the
save/restore done by function emission. -/
structure SymTab where
  locals : List (String × ℤ)
  globalNames : List String
  isFunc : Bool
  nextLocal : ℤ
deriving Repr

def newSymTab (isFunc : Bool) : SymTab :=
  ⟨[], [], isFunc, 0⟩

/-- `SymbolTable.Define`: a local (or any binding inside a function scope)
takes the next slot; otherwise the name is recorded as a global and −1 is
returned.  Operates on the head of the scope chain. -/
def symDefine (tabs : List SymTab) (name : String) (isLocal : Bool) :
    ℤ × List SymTab :=
  match tabs with
  | [] => (-1, [])
  | t :: rest =>
      if isLocal || t.isFunc then
        (t.nextLocal,
          { t with locals := mapInsert t.locals name t.nextLocal,
                   nextLocal := t.nextLocal + 1 } :: rest)
      else
        (-1, { t with globalNames := name :: t.globalNames } :: rest)

/-- `SymbolTable.Resolve`: walk the chain towards the root. -/
def symResolve : List SymTab → String → Bool × ℤ
  | [], _ => (false, -1)
  | t :: rest, name =>
      match mapLookup t.locals name with
      | some idx => (true, idx)
      | none => symResolve rest name

/-- The `Builder` of builder.go.  `loopStack` is appended to and truncated
exactly as in the source; note that nothing ever reads it. -/
structure Builder where
  instructions : List Instruction
  constants : List Constant
  symTabs : List SymTab
  loopStack : List ℤ
deriving Repr

def newBuilder : Builder :=
  ⟨[], [], [newSymTab false], []⟩

/-- `Builder.Emit`: append an instruction with line 0. -/
def Builder.emit (b : Builder) (op : ℕ) (arg : GoVal) : Builder :=
  { b with instructions := b.instructions ++ [⟨op, arg, 0⟩] }

/-- `Builder.AddConstant`: append and return the new index. -/
def Builder.addConstant (b : Builder) (val : GoVal) (typ : String) :
    Builder × ℕ :=
  ({ b with constants := b.constants ++ [⟨val, typ⟩] }, b.constants.length)

/-- `Builder.UpdateInstruction`: replace the argument of instruction `idx`
when the index is in range, otherwise do nothing. -/
def Builder.updateInstruction (b : Builder) (idx : ℤ) (arg : GoVal) :
    Builder :=
  if 0 ≤ idx ∧ idx < (b.instructions.length : ℤ) then
    let old := b.instructions.getD idx.toNat ⟨0, vnil, 0⟩
    { b with instructions :=
        b.instructions.set idx.toNat ⟨old.op, arg, old.line⟩ }
  else b

def Builder.pushLoop (b : Builder) (idx : ℤ) : Builder :=
  { b with loopStack := b.loopStack ++ [idx] }

def Builder.popLoop (b : Builder) : Builder :=
  { b with loopStack := b.loopStack.dropLast }

/-- Scope entry at the start of function emission:
`b.SymbolTable = NewSymbolTable(prevSym, true)`. -/
def Builder.pushScope (b : Builder) : Builder :=
  { b with symTabs := newSymTab true :: b.symTabs }

/-- Scope restore at the end of function emission:
`b.SymbolTable = prevSym`. -/
def Builder.popScope (b : Builder) : Builder :=
  { b with symTabs := b.symTabs.tail }

def Builder.define (b : Builder) (name : String) (isLocal : Bool) :
    ℤ × Builder :=
  let p := symDefine b.symTabs name isLocal
  (p.1, { b with symTabs := p.2 })

/-- The opcode chosen by `BinaryOpNode.Emit`; an unknown operator emits
nothing (the Go `switch` has no default case).  Note `and` and `or` are
lowered to `Mul` and `Add`. -/
def binOpCode (op : String) : Option ℕ :=
  if op = "+" then some OpAdd
  else if op = "-" then some OpSub
  else if op = "*" then some OpMul
  else if op = "/" then some OpDiv
  else if op = "==" then some OpCmpEq
  else if op = "!=" then some OpCmpNe
  else if op = "<" then some OpCmpLt
  else if op = "<=" then some OpCmpLte
  else if op = ">" then some OpCmpGt
  else if op = ">=" then some OpCmpGte
  else if op = "and" then some OpMul
  else if op = "or" then some OpAdd
  else none

/-- `LiteralNode.Emit`: add the constant and reference it. -/
def emitLiteral (b : Builder) (value : GoVal) (type : String) : Builder :=
  let r := b.addConstant value type
  r.1.emit OpConstant (vfloat r.2)

/-- Parameter definition loop of function emission. -/
def defineParams (b : Builder) : List String → Builder
  | [] => b
  | p :: ps => (defineParams ((b.define p true).2) ps)

mutual

/-- `Node.Emit` from builder.go, one case per node type. -/
def emitNode (n : Node) (b : Builder) : Builder :=
  match n with
  | .LiteralNode value type => emitLiteral b value type
  | .VariableNode name =>
      let (isLocal, idx) := symResolve b.symTabs name
      if isLocal then b.emit OpGetLocal (vfloat idx)
      else b.emit OpGetGlobal (vstr (strBytes name))
  | .UnaryOpNode op right =>
      let b1 := emitNode right b
      if op = "not" then b1.emit OpNot vnil else b1
  | .BinaryOpNode left op right =>
      let b1 := emitNode left b
      let b2 := emitNode right b1
      match binOpCode op with
      | some opc => b2.emit opc vnil
      | none => b2
  | .AssignmentNode name expr isLocal _ =>
      let b1 := emitNode expr b
      if isLocal then
        let r := b1.define name true
        if 0 ≤ r.1 then r.2.emit OpSetLocal (vfloat r.1)
        else r.2.emit OpSetGlobal (vstr (strBytes name))
      else
        let (isLoc, index) := symResolve b1.symTabs name
        if isLoc then b1.emit OpSetLocal (vfloat index)
        else b1.emit OpSetGlobal (vstr (strBytes name))
  | .IndexAssignNode table index value =>
      let b1 := emitNode table b
      let b2 := emitNode index b1
      let b3 := emitNode value b2
      b3.emit OpSetIndex vnil
  | .ExprStmtNode expr =>
      (emitNode expr b).emit OpPop vnil
  | .CallNode target args callType indirectTarget =>
      let b1 := emitNodes args b
      if callType = "direct" then
        let r := b1.addConstant (vfloat args.length) "number"
        (r.1.emit OpConstant (vfloat r.2)).emit OpCall
          (vstr (strBytes target))
      else
        let b2 := emitOptNode indirectTarget b1
        let r := b2.addConstant (vfloat args.length) "number"
        (r.1.emit OpConstant (vfloat r.2)).emit OpCallIndirect vnil
  | .TableLiteralNode keys values isArray =>
      if isArray then
        let b1 := emitNodes values b
        b1.emit OpArray (vfloat values.length)
      else
        let b1 := b.emit OpTable vnil
        emitTableEntries keys values b1
  | .IndexAccessNode table index =>
      let b1 := emitNode table b
      let b2 := emitNode index b1
      b2.emit OpGetIndex vnil
  | .WhileLoopNode condition body =>
      let startIdx : ℤ := b.instructions.length
      let b0 := b.pushLoop startIdx
      let b1 := emitNode condition b0
      let jumpFalseIdx : ℤ := b1.instructions.length
      let b2 := b1.emit OpJumpIfFalse (vint 0)
      let b3 := emitNodes body b2
      let b4 := b3.emit OpJump (vint startIdx)
      let exitIdx : ℤ := b4.instructions.length
      let b5 := b4.updateInstruction jumpFalseIdx (vint exitIdx)
      b5.popLoop
  | .IfNode conditions bodies elseBody =>
      let (b1, endJumps) :=
        emitIfBranches conditions bodies (!elseBody.isNil) b
      let b2 := emitNodes elseBody b1
      let finalIdx : ℤ := b2.instructions.length
      endJumps.foldl (fun bb idx => bb.updateInstruction idx (vint finalIdx)) b2
  | .FuncDefNode name _params body =>
      let bf := emitFuncCommon _params body b
      bf.emit OpSetGlobal (vstr (strBytes name))
  | .AnonymousFuncNode params body =>
      emitFuncCommon params body b
  | .ReturnNode value =>
      let b1 :=
        match value with
        | .some v => emitNode v b
        | .none =>
            let r := b.addConstant vnil "nil"
            r.1.emit OpConstant (vfloat r.2)
      b1.emit OpReturn vnil
  | .BreakNode => b.emit OpJump (vint (-1))
  | .ForLoopNode init cond update body loopVar collection type =>
      if type = "in" then
        emitForIn body loopVar collection b
      else
        emitForCstyle init cond update body b
termination_by (sizeOf n, 0)

/-- The shared body of `FuncDefNode.Emit` and `AnonymousFuncNode.Emit`, up
to (but not including) the trailing `SetGlobal` of the named form. -/
def emitFuncCommon (params : List String) (body : NodeList) (b : Builder) :
    Builder :=
  let b1 := b.emit OpJump (vint 0)
  let funcJumpIdx : ℤ := (b1.instructions.length : ℤ) - 1
  let b2 := defineParams b1.pushScope params
  let startIp : ℕ := b2.instructions.length
  let b3 := emitNodes body b2
  let b4 :=
    if b3.instructions.length = 0 ∨
        (b3.instructions.getLastD ⟨0, vnil, 0⟩).op ≠ OpReturn then
      let r := b3.addConstant vnil "nil"
      (r.1.emit OpConstant (vfloat r.2)).emit OpReturn vnil
    else b3
  let b5 := b4.popScope
  let b6 := b5.updateInstruction funcJumpIdx (vint b5.instructions.length)
  let r := b6.addConstant (vfloat startIp) "funcptr"
  r.1.emit OpMakeFunc (vfloat r.2)
termination_by (sizeOf body, 2)

/-- `ForLoopNode.emitUpdateOrInit`. -/
def emitUpdateOrInit (node : Node) (b : Builder) : Builder :=
  match node with
  | .AssignmentNode name expr _ _ =>
      let b1 := emitNode expr b
      let (isLoc, idx) := symResolve b1.symTabs name
      let b2 :=
        if isLoc then b1.emit OpSetLocal (vfloat idx)
        else b1.emit OpSetGlobal (vstr (strBytes name))
      b2.emit OpPop vnil
  | other =>
      (emitNode other b).emit OpPop vnil
termination_by (sizeOf node, 1)

/-- `ForLoopNode.emitCstyle`. -/
def emitForCstyle (init cond update : OptNode) (body : NodeList)
    (b : Builder) : Builder :=
  let b0 :=
    match init with
    | .some n => emitUpdateOrInit n b
    | .none => b
  let startIdx : ℤ := b0.instructions.length
  let b1 := b0.pushLoop startIdx
  let b9 :=
    match cond with
    | .some c =>
        let b2 := emitNode c b1
        let jumpFalseIdx : ℤ := b2.instructions.length
        let b3 := b2.emit OpJumpIfFalse (vint 0)
        let b4 := emitNodes body b3
        let b5 :=
          match update with
          | .some u => emitUpdateOrInit u b4
          | .none => b4
        let b6 := b5.emit OpJump (vint startIdx)
        let exitIdx : ℤ := b6.instructions.length
        b6.updateInstruction jumpFalseIdx (vint exitIdx)
    | .none =>
        let b4 := emitNodes body b1
        let b5 :=
          match update with
          | .some u => emitUpdateOrInit u b4
          | .none => b4
        b5.emit OpJump (vint startIdx)
  b9.popLoop
termination_by (sizeOf init + sizeOf cond + sizeOf update + sizeOf body, 0)

/-- `ForLoopNode.emitInLoop`.  A nil collection would make the Go code
panic; the model emits nothing for it (the parser always supplies one). -/
def emitForIn (body : NodeList) (loopVar : String) (collection : OptNode)
    (b : Builder) : Builder :=
  let b1 := emitOptNode collection b
  let r1 := b1.addConstant (vint 1) "number"
  let b3 := (r1.1.emit OpConstant (vfloat r1.2)).emit OpCall
    (vstr (strBytes "len"))
  let d1 := b3.define (loopVar ++ "_counter") true
  let counterIdx := d1.1
  let r2 := d1.2.addConstant (vint 0) "number"
  let b6 := (r2.1.emit OpConstant (vfloat r2.2)).emit OpSetLocal
    (vfloat counterIdx)
  let startIdx : ℤ := b6.instructions.length
  let b7 := b6.pushLoop startIdx
  let b8 := (b7.emit OpGetLocal (vfloat counterIdx))
  let b9 := emitOptNode collection b8
  let r3 := b9.addConstant (vint 1) "number"
  let b11 := ((r3.1.emit OpConstant (vfloat r3.2)).emit OpCall
    (vstr (strBytes "len"))).emit OpCmpLt vnil
  let jumpFalseIdx : ℤ := b11.instructions.length
  let b12 := b11.emit OpJumpIfFalse (vint 0)
  let b13 := emitOptNode collection b12
  let b14 := ((b13.emit OpGetLocal (vfloat counterIdx)).emit OpGetIndex vnil)
  let d2 := b14.define loopVar true
  let b16 := d2.2.emit OpSetLocal (vfloat d2.1)
  let b17 := emitNodes body b16
  let b18 := b17.emit OpGetLocal (vfloat counterIdx)
  let r4 := b18.addConstant (vint 1) "number"
  let b20 := ((r4.1.emit OpConstant (vfloat r4.2)).emit OpAdd vnil).emit
    OpSetLocal (vfloat counterIdx)
  let b21 := b20.emit OpJump (vint startIdx)
  let exitIdx : ℤ := b21.instructions.length
  (b21.updateInstruction jumpFalseIdx (vint exitIdx)).popLoop
termination_by (sizeOf body + sizeOf collection, 0)
decreasing_by
  all_goals simp_wf
  all_goals apply Prod.Lex.left
  all_goals
    (first
      | (have hb : 0 < sizeOf body := by cases body <;> simp <;> try omega
         have hc : 0 < sizeOf collection := by
           cases collection <;> simp <;> try omega
         omega)
      | omega)

/-- The branch loop of `IfNode.Emit`; returns the accumulated `endJumps`. -/
def emitIfBranches (conds : NodeList) (bodies : NodeListList)
    (hasElse : Bool) (b : Builder) : Builder × List ℤ :=
  match conds with
  | .nil => (b, [])
  | .cons c cs =>
      let b1 := emitNode c b
      let jumpIdx : ℤ := b1.instructions.length
      let b2 := b1.emit OpJumpIfFalse (vint 0)
      let b3 := emitNodes bodies.headD b2
      let r :=
        if !cs.isNil || hasElse then
          let endJumpIdx : ℤ := b3.instructions.length
          (b3.emit OpJump (vint 0), [endJumpIdx])
        else (b3, ([] : List ℤ))
      let b5 := r.1.updateInstruction jumpIdx (vint r.1.instructions.length)
      let rr := emitIfBranches cs bodies.tailD hasElse b5
      (rr.1, r.2 ++ rr.2)
termination_by (sizeOf conds + sizeOf bodies, 0)
decreasing_by
  all_goals simp_wf
  all_goals apply Prod.Lex.left
  all_goals
    (have hh : sizeOf bodies.headD ≤ sizeOf bodies := by
      cases bodies <;> simp [NodeListList.headD] <;> try omega
     have ht : sizeOf bodies.tailD ≤ sizeOf bodies := by
      cases bodies <;> simp [NodeListList.tailD] <;> try omega
     omega)

/-- Emission of a nilable node field. -/
def emitOptNode (o : OptNode) (b : Builder) : Builder :=
  match o with
  | .some n => emitNode n b
  | .none => b
termination_by (sizeOf o, 0)

/-- Emission of a statement list. -/
def emitNodes (l : NodeList) (b : Builder) : Builder :=
  match l with
  | .nil => b
  | .cons h t => emitNodes t (emitNode h b)
termination_by (sizeOf l, 1)

/-- Emission of the key/value pairs of a table literal.  Go indexes
`n.Values[i]` while ranging over `n.Keys`; a missing value would panic, the
model stops instead. -/
def emitTableEntries (keys : List String) (values : NodeList) (b : Builder) :
    Builder :=
  match keys, values with
  | k :: ks, .cons v vs =>
      let r := b.addConstant (vstr (strBytes k)) "string"
      let b3 := emitNode v (r.1.emit OpConstant (vfloat r.2))
      emitTableEntries ks vs (b3.emit OpSetIndex vnil)
  | _, _ => b
termination_by (sizeOf values, 0)

end

/-- The driver loop of `BuildCommand` / `run` (src/unnamed/part_002): emit
every top-level node, then append `Halt`.  `TypeCheck` is not modelled: it
only mutates symbol tables, and for the concrete programs examined below it
defines no local, so emission is unchanged.  The peephole optimizer invoked
by the driver is outside the core (spec §1) and is not applied. -/
def buildProgram (nodes : List Node) : Builder :=
  (nodes.foldl (fun b n => emitNode n b) newBuilder).emit OpHalt vnil

/-! ## The virtual machine (vm.go) -/

/-- `Frame`: instruction pointer, frame base (`Frame.Sp`), argument count.
The `Instructions` field is omitted: every frame stores the same program
slice. -/
structure Frame where
  ip : ℤ
  sp : ℤ
  argCount : ℤ
deriving Repr

/-- VM state: the (capacity-sized) evaluation stack with its top pointer,
the call stack (head = most recently pushed frame, i.e. the end of the Go
slice), and the globals map. -/
structure VMState where
  stack : List GoVal
  sp : ℤ
  callStack : List Frame
  globals : List (List ℕ × GoVal)
deriving Repr

/-- Run-terminating conditions.  `haltSig` is the sentinel error `"_HALT_"`
returned by the `OpHalt` handler; `fault` stands for a Go panic (stack
underflow in `pop`, slice/index out of range, failed type assertion,
negative `make` length). -/
inductive VMErr where
  | haltSig
  | divByZero
  | funcNotFound (name : List ℕ)
  | callNonFunction
  | fault
deriving Repr, DecidableEq

/-- The builtin registry (`builtins.Builtins`), an external collaborator:
an opaque mapping from name to a function from the argument list to a
result or a run-terminating error. -/
def Registry : Type := List ℕ → Option (List GoVal → Except VMErr GoVal)

/-- The empty registry (no builtin resolves). -/
def emptyRegistry : Registry := fun _ => none

/-- `toFloat64` from vm.go: numbers coerce, everything else is `0.0`.
(The `int64`/`int32` cases of the source cannot occur for pipeline
values.) -/
def toFloat64 : GoVal → ℚ
  | vfloat q => q
  | vint n => n
  | _ => 0

/-- The falsy test `val == nil || val == 0.0 || val == false || val == ""`
shared by `OpNot` and `OpJumpIfFalse`.  Go interface equality requires the
dynamic type to match, so only a `float64` zero passes the `0.0` test. -/
def goFalsy : GoVal → Bool
  | vnil => true
  | vfloat q => q = 0
  | vbool b => !b
  | vstr s => s.isEmpty
  | _ => false

/-- ASCII decimal digits of a natural number. -/
def natDigits (n : ℕ) : List ℕ :=
  if h : n < 10 then [48 + n]
  else natDigits (n / 10) ++ [48 + n % 10]
decreasing_by exact Nat.div_lt_self (by omega) (by omega)

def intDigits (n : ℤ) : List ℕ :=
  if n < 0 then 45 :: natDigits (-n).toNat else natDigits n.toNat

/-- `fmt.Sprintf("%v", x)`, used by the VM to stringify table keys and
non-numeric `Add` operands.  Integer-valued numbers print their digits as
in Go; the text chosen for non-integer floats, arrays and tables is an
abstraction of Go's formatting (no theorem below depends on it). -/
def goSprintf : GoVal → List ℕ
  | vnil => strBytes "<nil>"
  | vbool true => strBytes "true"
  | vbool false => strBytes "false"
  | vint n => intDigits n
  | vfloat q => if q.den = 1 then intDigits q.num
      else intDigits q.num ++ 47 :: natDigits q.den
  | vstr s => s
  | varr _ => strBytes "[array]"
  | vmap _ => strBytes "[table]"

/-- Go interface equality `a == b` as used by `OpCmpEq`/`OpCmpNe`:
different dynamic types compare unequal; two slices or two maps are
uncomparable and panic. -/
def goEq (a b : GoVal) : Except VMErr Bool :=
  match a, b with
  | vnil, vnil => .ok true
  | vfloat x, vfloat y => .ok (x = y)
  | vint x, vint y => .ok (x = y)
  | vbool x, vbool y => .ok (x = y)
  | vstr x, vstr y => .ok (x = y)
  | varr _, varr _ => .error .fault
  | vmap _, vmap _ => .error .fault
  | _, _ => .ok false

/-- `genericAdd` of the `OpAdd` handler (the cached float fast path of
`adaptOp` computes the same sum for two floats).  Non-numeric combinations
concatenate the stringified operands via `fmt.Sprintf`. -/
def goAdd (a b : GoVal) : GoVal :=
  match a, b with
  | vfloat av, vfloat bv => vfloat (av + bv)
  | vfloat av, vint bv => vfloat (av + bv)
  | vint av, vfloat bv => vfloat ((av : ℚ) + bv)
  | vint av, vint bv => vfloat ((av + bv : ℤ))
  | vstr av, vstr bv => vstr (av ++ bv)
  | vstr av, _ => vstr (av ++ goSprintf b)
  | _, _ => vstr (goSprintf a ++ goSprintf b)

/-- Precompiled operations: the closures produced by `VM.makeOp`, with the
values they capture at precompile time. -/
inductive POp where
  | constant (val : GoVal)
  | table
  | arr (count : ℤ)
  | cmpEq | cmpNe | cmpLt | cmpLte | cmpGt | cmpGte
  | add | sub | mul | div
  | opnot
  | setGlobal (key : List ℕ)
  | getGlobal (name : List ℕ)
  | setLocal (idx : ℤ)
  | getLocal (idx : ℤ)
  | getIndex | setIndex
  | call (target : List ℕ)
  | callIndirect
  | ret
  | makeFunc (entry : GoVal)
  | jump (target : ℤ)
  | jumpIfFalse (target : ℤ)
  | pop
  | halt
  | nop
deriving Repr

/-- Bounds-checked list read at a Go `int` index (out of range models the
Go index panic). -/
def listGetZ (l : List GoVal) (i : ℤ) : Option GoVal :=
  if 0 ≤ i ∧ i.toNat < l.length then some (l.getD i.toNat vnil) else none

/-- Bounds-checked list write at a Go `int` index. -/
def listSetZ (l : List GoVal) (i : ℤ) (v : GoVal) : Option (List GoVal) :=
  if 0 ≤ i ∧ i.toNat < l.length then some (l.set i.toNat v) else none

/-- `VM.push`: grow the stack by half its length when full (`make` fills
the new tail with nil), then store at `Sp` and increment.  A negative `Sp`
makes the store panic, as in Go. -/
def vmPush (st : VMState) (val : GoVal) : Except VMErr VMState :=
  let stack :=
    if (st.stack.length : ℤ) ≤ st.sp then
      st.stack ++ List.replicate (st.stack.length / 2) vnil
    else st.stack
  match listSetZ stack st.sp val with
  | some s' => .ok { st with stack := s', sp := st.sp + 1 }
  | none => .error .fault

/-- `VM.pop`: panics ("Stack Underflow") at `Sp <= 0`, otherwise decrements
and returns the slot. -/
def vmPop (st : VMState) : Except VMErr (GoVal × VMState) :=
  if st.sp ≤ 0 then .error .fault
  else
    match listGetZ st.stack (st.sp - 1) with
    | some v => .ok (v, { st with sp := st.sp - 1 })
    | none => .error .fault

/-- The Go slice expression `v.Stack[base:v.Sp]` (panics unless
`0 ≤ base ≤ Sp ≤ len`). -/
def stackSlice (st : VMState) (base : ℤ) : Option (List GoVal) :=
  if 0 ≤ base ∧ base ≤ st.sp ∧ st.sp ≤ (st.stack.length : ℤ) then
    some ((st.stack.take st.sp.toNat).drop base.toNat)
  else none

def VMState.topFrame (st : VMState) : Frame :=
  st.callStack.headD ⟨0, 0, 0⟩

/-- Overwrite the instruction pointer of the top frame (`f.Ip = target`). -/
def setFrameIp (st : VMState) (t : ℤ) : VMState :=
  match st.callStack with
  | f :: rest => { st with callStack := { f with ip := t } :: rest }
  | [] => st

/-- Bounds-checked constant-pool read (`v.Constants[idx]` panics when out
of range). -/
def constGetZ (constants : List Constant) (i : ℤ) : Option Constant :=
  if 0 ≤ i ∧ i.toNat < constants.length then
    some (constants.getD i.toNat ⟨vnil, ""⟩)
  else none

/-- `VM.makeOp`: precompile one instruction into its handler, performing
the argument type assertions and constant-pool reads that the Go closures
perform at precompile time.  A failed assertion or out-of-range pool index
is the corresponding panic (`.fault`); an unknown opcode yields the
do-nothing handler. -/
def makeOp (constants : List Constant) (inst : Instruction) :
    Except VMErr POp :=
  if inst.op = OpConstant then
    match inst.arg with
    | vfloat q =>
        match constGetZ constants (goTrunc q) with
        | some c => .ok (.constant c.value)
        | none => .error .fault
    | _ => .error .fault
  else if inst.op = OpTable then .ok .table
  else if inst.op = OpArray then
    match inst.arg with
    | vfloat q => .ok (.arr (goTrunc q))
    | _ => .error .fault
  else if inst.op = OpCmpEq then .ok .cmpEq
  else if inst.op = OpCmpNe then .ok .cmpNe
  else if inst.op = OpCmpLt then .ok .cmpLt
  else if inst.op = OpCmpLte then .ok .cmpLte
  else if inst.op = OpCmpGt then .ok .cmpGt
  else if inst.op = OpCmpGte then .ok .cmpGte
  else if inst.op = OpAdd then .ok .add
  else if inst.op = OpSub then .ok .sub
  else if inst.op = OpMul then .ok .mul
  else if inst.op = OpDiv then .ok .div
  else if inst.op = OpNot then .ok .opnot
  else if inst.op = OpSetGlobal then
    match inst.arg with
    | vstr s => .ok (.setGlobal s)
    | _ => .error .fault
  else if inst.op = OpGetGlobal then
    match inst.arg with
    | vstr s => .ok (.getGlobal s)
    | _ => .error .fault
  else if inst.op = OpSetLocal then
    match inst.arg with
    | vfloat q => .ok (.setLocal (goTrunc q))
    | _ => .error .fault
  else if inst.op = OpGetLocal then
    match inst.arg with
    | vfloat q => .ok (.getLocal (goTrunc q))
    | _ => .error .fault
  else if inst.op = OpGetIndex then .ok .getIndex
  else if inst.op = OpSetIndex then .ok .setIndex
  else if inst.op = OpCall then
    match inst.arg with
    | vstr s => .ok (.call s)
    | _ => .error .fault
  else if inst.op = OpCallIndirect then .ok .callIndirect
  else if inst.op = OpReturn then .ok .ret
  else if inst.op = OpMakeFunc then
    match inst.arg with
    | vfloat q =>
        match constGetZ constants (goTrunc q) with
        | some c => .ok (.makeFunc c.value)
        | none => .error .fault
    | _ => .error .fault
  else if inst.op = OpJump then .ok (.jump (goTrunc (toFloat64 inst.arg)))
  else if inst.op = OpJumpIfFalse then
    .ok (.jumpIfFalse (goTrunc (toFloat64 inst.arg)))
  else if inst.op = OpPop then .ok .pop
  else if inst.op = OpHalt then .ok .halt
  else .ok .nop

/-- The array-index conversion of the `OpSetIndex` handler
(`switch idx := index.(type)`). -/
def setIndexArrIdx (index : GoVal) : ℤ :=
  match index with
  | vfloat q => goTrunc q
  | vint n => n
  | other => goTrunc (toFloat64 other)

/-- Execute one precompiled operation on a state whose instruction pointer
has already been advanced (`f.Ip++` happens before the handler runs in
`VM.Run`).  One case per handler of `VM.makeOp`. -/
def execPOp (B : Registry) (op : POp) (st : VMState) :
    Except VMErr VMState :=
  let f := st.topFrame
  match op with
  | .constant val => vmPush st val
  | .table => vmPush st (vmap [])
  | .arr count =>
      if count < 0 then .error .fault
      else
        let base := st.sp - count
        match stackSlice st base with
        | some arr => vmPush { st with sp := base } (varr arr)
        | none => .error .fault
  | .cmpEq => do
      let (b, st1) ← vmPop st
      let (a, st2) ← vmPop st1
      let e ← goEq a b
      vmPush st2 (if e then vfloat 1 else vfloat 0)
  | .cmpNe => do
      let (b, st1) ← vmPop st
      let (a, st2) ← vmPop st1
      let e ← goEq a b
      vmPush st2 (if e then vfloat 0 else vfloat 1)
  | .cmpLt => do
      let (b, st1) ← vmPop st
      let (a, st2) ← vmPop st1
      vmPush st2 (if toFloat64 a < toFloat64 b then vfloat 1 else vfloat 0)
  | .cmpLte => do
      let (b, st1) ← vmPop st
      let (a, st2) ← vmPop st1
      vmPush st2 (if toFloat64 a ≤ toFloat64 b then vfloat 1 else vfloat 0)
  | .cmpGt => do
      let (b, st1) ← vmPop st
      let (a, st2) ← vmPop st1
      vmPush st2 (if toFloat64 b < toFloat64 a then vfloat 1 else vfloat 0)
  | .cmpGte => do
      let (b, st1) ← vmPop st
      let (a, st2) ← vmPop st1
      vmPush st2 (if toFloat64 b ≤ toFloat64 a then vfloat 1 else vfloat 0)
  | .add => do
      let (b, st1) ← vmPop st
      let (a, st2) ← vmPop st1
      vmPush st2 (goAdd a b)
  | .sub => do
      let (b, st1) ← vmPop st
      let (a, st2) ← vmPop st1
      vmPush st2 (vfloat (toFloat64 a - toFloat64 b))
  | .mul => do
      let (b, st1) ← vmPop st
      let (a, st2) ← vmPop st1
      vmPush st2 (vfloat (toFloat64 a * toFloat64 b))
  | .div => do
      let (b, st1) ← vmPop st
      let (a, st2) ← vmPop st1
      if toFloat64 b = 0 then .error .divByZero
      else vmPush st2 (vfloat (toFloat64 a / toFloat64 b))
  | .opnot => do
      let (val, st1) ← vmPop st
      vmPush st1 (if goFalsy val then vfloat 1 else vfloat 0)
  | .setGlobal key => do
      let (val, st1) ← vmPop st
      .ok { st1 with globals := mapInsert st1.globals key val }
  | .getGlobal name =>
      match mapLookup st.globals name with
      | some v => vmPush st v
      | none => vmPush st vnil
  | .setLocal idx => do
      let (val, st1) ← vmPop st
      match listSetZ st1.stack (f.sp + idx) val with
      | some s' => .ok { st1 with stack := s' }
      | none => .error .fault
  | .getLocal idx =>
      match listGetZ st.stack (f.sp + idx) with
      | some v => vmPush st v
      | none => .error .fault
  | .getIndex => do
      let (index, st1) ← vmPop st
      let (table, st2) ← vmPop st1
      match table with
      | varr t =>
          let i := goTrunc (toFloat64 index)
          if 0 ≤ i ∧ i.toNat < t.length then
            vmPush st2 (t.getD i.toNat vnil)
          else vmPush st2 vnil
      | vmap t =>
          match mapLookup t (goSprintf index) with
          | some v => vmPush st2 v
          | none => vmPush st2 vnil
      | _ => vmPush st2 vnil
  | .setIndex => do
      let (val, st1) ← vmPop st
      let (index, st2) ← vmPop st1
      let (table, st3) ← vmPop st2
      match table with
      | varr t =>
          let i := setIndexArrIdx index
          let t' := if 0 ≤ i ∧ i.toNat < t.length then t.set i.toNat val else t
          vmPush st3 (varr t')
      | vmap t =>
          vmPush st3 (vmap (mapInsert t (goSprintf index) val))
      | _ => .ok st3
  | .call target => do
      let (cv, st1) ← vmPop st
      let count := goTrunc (toFloat64 cv)
      match B target with
      | some fn =>
          let base := st1.sp - count
          match stackSlice st1 base with
          | some args => do
              let res ← fn args
              vmPush { st1 with sp := base } res
          | none => .error .fault
      | none =>
          match mapLookup st1.globals target with
          | some (vmap m) =>
              match mapLookup m (strBytes "type") with
              | some (vstr t) =>
                  if t = strBytes "function" then
                    match mapLookup m (strBytes "entry") with
                    | some (vfloat q) =>
                        .ok { st1 with callStack :=
                          ⟨goTrunc q, st1.sp - count, count⟩ :: st1.callStack }
                    | _ => .error .fault
                  else .error (.funcNotFound target)
              | _ => .error (.funcNotFound target)
          | _ => .error (.funcNotFound target)
  | .callIndirect => do
      let (cv, st1) ← vmPop st
      match cv with
      | vfloat q =>
          let count := goTrunc q
          let (callee, st2) ← vmPop st1
          match callee with
          | vmap m =>
              match mapLookup m (strBytes "type") with
              | some (vstr t) =>
                  if t = strBytes "function" then
                    match mapLookup m (strBytes "entry") with
                    | some (vfloat eq') =>
                        .ok { st2 with callStack :=
                          ⟨goTrunc eq', st2.sp - count, count⟩ :: st2.callStack }
                    | _ => .error .fault
                  else .error .callNonFunction
              | _ => .error .callNonFunction
          | _ => .error .callNonFunction
      | _ => .error .fault
  | .ret => do
      let frameSp := f.sp
      let (retVal, st1) ←
        if frameSp < st.sp then vmPop st else .ok ((vnil : GoVal), st)
      let st2 := { st1 with callStack := st1.callStack.tail }
      if st2.callStack.isEmpty then .ok { st2 with sp := 0 }
      else vmPush { st2 with sp := frameSp } retVal
  | .makeFunc entry =>
      vmPush st (vmap [(strBytes "type", vstr (strBytes "function")),
        (strBytes "entry", entry)])
  | .jump t => .ok (setFrameIp st t)
  | .jumpIfFalse t => do
      let (cond, st1) ← vmPop st
      if goFalsy cond then .ok (setFrameIp st1 t) else .ok st1
  | .pop =>
      if 0 < st.sp then .ok { st with sp := st.sp - 1 } else .ok st
  | .halt => .error .haltSig
  | .nop => .ok st

/-- One transition of the `VM.Run` loop: with an empty call stack the run
returns nil (`finished`); with the top frame's ip beyond the program the
inner loop never executes and the outer loop spins (no progress, modelled
as an unchanged state); otherwise fetch, advance ip, execute.  `haltSig`
makes `Run` return nil (`halted`). -/
inductive StepRes where
  | next (st : VMState)
  | halted (st : VMState)
  | finished (st : VMState)
  | failed (e : VMErr) (st : VMState)
deriving Repr

def vmStep (B : Registry) (ops : List POp) (st : VMState) : StepRes :=
  match st.callStack with
  | [] => .finished st
  | f :: rest =>
      if f.ip < (ops.length : ℤ) then
        if 0 ≤ f.ip then
          let op := ops.getD f.ip.toNat .nop
          let st1 : VMState := { st with callStack := { f with ip := f.ip + 1 } :: rest }
          match execPOp B op st1 with
          | .ok st2 => .next st2
          | .error .haltSig => .halted st1
          | .error e => .failed e st1
        else .failed .fault st
      else .next st

/-- Fuel-indexed iteration of `vmStep`; `outOfFuel` covers the diverging
executions (including the outer-loop spin on a frame that ran off the end
of the program). -/
inductive RunOutcome where
  | halted (st : VMState)
  | finished (st : VMState)
  | failed (e : VMErr) (st : VMState)
  | outOfFuel (st : VMState)
deriving Repr

def runVM (B : Registry) (ops : List POp) : ℕ → VMState → RunOutcome
  | 0, st => .outOfFuel st
  | fuel + 1, st =>
      match vmStep B ops st with
      | .next st' => runVM B ops fuel st'
      | .halted st' => .halted st'
      | .finished st' => .finished st'
      | .failed e st' => .failed e st'

/-- Iterate at most `n` single steps, keeping the intermediate state
visible (used to inspect configurations mid-run). -/
def runSteps (B : Registry) (ops : List POp) : ℕ → VMState → StepRes
  | 0, st => .next st
  | n + 1, st =>
      match vmStep B ops st with
      | .next st' => runSteps B ops n st'
      | r => r

/-- The state `VM.Run` starts from: 8192 nil stack slots, `Sp = 0`, one
frame at ip 0 with base 0, empty globals. -/
def initVMState : VMState :=
  ⟨List.replicate 8192 vnil, 0, [⟨0, 0, 0⟩], []⟩

/-- `VM.Run` after `loadBytecode`: precompile every instruction, then run.
A precompile-time panic is a `failed` outcome before any step. -/
def runProgram (B : Registry) (fuel : ℕ) (instructions : List Instruction)
    (constants : List Constant) : RunOutcome :=
  match instructions.mapM (makeOp constants) with
  | .error e => .failed e initVMState
  | .ok ops => runVM B ops fuel initVMState

def StepRes.state : StepRes → VMState
  | .next st => st
  | .halted st => st
  | .finished st => st
  | .failed _ st => st

def RunOutcome.isNormal : RunOutcome → Bool
  | .halted _ => true
  | .finished _ => true
  | _ => false

def RunOutcome.isFinished : RunOutcome → Bool
  | .finished _ => true
  | _ => false

def RunOutcome.state : RunOutcome → VMState
  | .halted st => st
  | .finished st => st
  | .failed _ st => st
  | .outOfFuel st => st

/-! ## Claim-specific definitions -/

/-- The constants the emitter can place in the pool: `number` values are
parser literals (always `float64`) or the `int` literals `0`/`1` of the
for-in lowering (generalized here to the whole small-int fast-path range
`−127..127`); `string` values are Go strings (of `uint32`-expressible
length, as the length is written as a `uint32`); `funcptr` values are
`float64(startIp)` instruction indices; `bool` and `nil` complete the five
pool types of the data model. -/
def Admissible (c : Constant) : Prop :=
  (c.type = "number" ∧
    ((∃ q, c.value = vfloat q) ∨
      (∃ n : ℤ, c.value = vint n ∧ -127 ≤ n ∧ n ≤ 127)))
  ∨ (c.type = "string" ∧ ∃ s, c.value = vstr s ∧ s.length < 2 ^ 32)
  ∨ (c.type = "funcptr" ∧ ∃ n : ℕ, n < 2 ^ 32 ∧ c.value = vfloat n)
  ∨ (c.type = "bool" ∧ ∃ bb, c.value = vbool bb)
  ∨ (c.type = "nil" ∧ c.value = vnil)

/-- The two instruction indices that describe an emitted function: the
guard jump at `jIdx` carries the patched target `t` (the first index after
the body), and the last instruction of the body region, at `t - 1`, is a
`Return`. -/
def bodyEndsReturn (b' : Builder) (jIdx t : ℕ) : Prop :=
  b'.instructions.getD jIdx ⟨OpNop, vnil, 0⟩ = ⟨OpJump, vint t, 0⟩ ∧
  (b'.instructions.getD (t - 1) ⟨OpNop, vnil, 0⟩).op = OpReturn

/-- Containers recognized by the `OpSetIndex`/`OpGetIndex` switches. -/
def isContainer : GoVal → Bool
  | varr _ => true
  | vmap _ => true
  | _ => false

/-- `while true do break end` as an AST (a literal `1` is the parser's
lowering of `true`). -/
def breakLoopProg : List Node :=
  [.WhileLoopNode (.LiteralNode (vfloat 1) "number") (.cons .BreakNode .nil)]

/-- `func f() if 0 then return 1 end end; f()` as an AST: a function whose
body is an `if` whose only branch ends in `return`. -/
def funcIfReturnProg : List Node :=
  [.FuncDefNode "f" []
      (.cons (.IfNode (.cons (.LiteralNode (vfloat 0) "number") .nil)
        (.cons (.cons (.ReturnNode (.some (.LiteralNode (vfloat 1) "number")))
          .nil) .nil)
        .nil) .nil),
   .ExprStmtNode (.CallNode "f" .nil "direct" .none)]

/-- The single-instruction program consisting of a top-level `Return`. -/
def topLevelReturnProg : List Instruction := [⟨OpReturn, vnil, 0⟩]

/-- The instruction whose round trip through the bytecode file is broken:
`Constant` with the integer-valued `float64` argument `1`. -/
def c1Instr : Instruction := ⟨OpConstant, vfloat 1, 0⟩

/- Well-founded definitions are sealed by default; unseal them so that
concrete emitter runs and encodings reduce definitionally. -/
unseal writeVarUint natDigits emitNode emitNodes emitOptNode emitIfBranches
unseal emitTableEntries emitFuncCommon emitUpdateOrInit emitForCstyle
unseal emitForIn

/-! # Theorems -/

/-! ## Arithmetic and stream helpers -/

theorem lor_mul_pow (n : ℕ) :
    ∀ a c : ℕ, a < 2 ^ n → a ||| c * 2 ^ n = a + c * 2 ^ n := by
  induction n with
  | zero =>
      intro a c h
      have : a = 0 := by omega
      subst this
      simp
  | succ n ih =>
      intro a c h
      have ha : Nat.bit a.bodd a.div2 = a := Nat.bit_decomp a
      have hb : c * 2 ^ (n + 1) = Nat.bit false (c * 2 ^ n) := by
        simp [Nat.bit]
        ring
      rw [← ha, hb, Nat.lor_bit]
      have hd : a.div2 < 2 ^ n := by
        have := Nat.bit_decomp a
        simp [Nat.bit] at this
        rcases Bool.eq_false_or_eq_true a.bodd with hbo | hbo <;>
          simp [hbo] at this <;> omega
      rw [ih a.div2 c hd]
      cases hbo : a.bodd <;> simp [Nat.bit] <;> ring

theorem readVarUintAux_writeVarUint (v : ℕ) :
    ∀ (shift acc : ℕ) (rest : List BItem),
    v * 2 ^ shift < 2 ^ 32 → acc < 2 ^ shift →
    readVarUintAux ((writeVarUint v).map .byte ++ rest) shift acc =
      some (acc + v * 2 ^ shift, rest) := by
  induction v using Nat.strong_induction_on with
  | _ v ih =>
    intro shift acc rest hv hacc
    rw [writeVarUint]
    by_cases h : v < 128
    · simp only [dif_pos h, List.map_cons, List.map_nil, List.cons_append,
        List.nil_append, readVarUintAux]
      have h1 : v % 128 = v := Nat.mod_eq_of_lt h
      have h2 : v % 256 = v := Nat.mod_eq_of_lt (by omega)
      have h3 : v * 2 ^ shift % 2 ^ 32 = v * 2 ^ shift := Nat.mod_eq_of_lt hv
      rw [h1, h2, h3, if_pos h, lor_mul_pow shift acc v hacc]
    · simp only [dif_neg h, List.map_cons, List.cons_append, readVarUintAux]
      have hb1 : (v % 128 + 128) % 256 = v % 128 + 128 :=
        Nat.mod_eq_of_lt (by omega)
      rw [hb1, if_neg (by omega)]
      have hg : (v % 128 + 128) % 128 = v % 128 := by omega
      have hmlt : v % 128 * 2 ^ shift < 2 ^ 32 :=
        lt_of_le_of_lt (Nat.mul_le_mul_right _ (by omega)) hv
      have hmod : v % 128 * 2 ^ shift % 2 ^ 32 = v % 128 * 2 ^ shift :=
        Nat.mod_eq_of_lt hmlt
      rw [hg, hmod, lor_mul_pow shift acc (v % 128) hacc]
      have hrec := ih (v / 128) (Nat.div_lt_self (by omega) (by omega))
        (shift + 7) (acc + v % 128 * 2 ^ shift) rest
      have c1 : v / 128 * 2 ^ (shift + 7) < 2 ^ 32 := by
        calc v / 128 * 2 ^ (shift + 7) = v / 128 * 128 * 2 ^ shift := by ring
        _ ≤ v * 2 ^ shift := Nat.mul_le_mul_right _ (by omega)
        _ < 2 ^ 32 := hv
      have c2 : acc + v % 128 * 2 ^ shift < 2 ^ (shift + 7) := by
        have hm : v % 128 * 2 ^ shift ≤ 127 * 2 ^ shift :=
          Nat.mul_le_mul_right _ (by omega)
        have hp : (2 : ℕ) ^ (shift + 7) = 128 * 2 ^ shift := by
          rw [pow_add]; ring
        omega
      rw [hrec c1 c2]
      congr 2
      have := Nat.div_add_mod v 128
      calc acc + v % 128 * 2 ^ shift + v / 128 * 2 ^ (shift + 7)
          = acc + (v % 128 + 128 * (v / 128)) * 2 ^ shift := by ring
      _ = acc + v * 2 ^ shift := by
          rw [show v % 128 + 128 * (v / 128) = v by omega]

theorem readVarUint_writeVarUint (v : ℕ) (hv : v < 2 ^ 32)
    (rest : List BItem) :
    readVarUint ((writeVarUint v).map .byte ++ rest) = some (v, rest) := by
  unfold readVarUint
  have := readVarUintAux_writeVarUint v 0 0 rest (by simpa using hv)
    (by norm_num)
  simpa using this

theorem readBytes_map_byte (s : List ℕ) (rest : List BItem) :
    readBytes s.length (s.map .byte ++ rest) = some (s, rest) := by
  induction s with
  | nil => simp [readBytes]
  | cons b bs ih => simp [readBytes, ih]

theorem readVarUint16_writeVarUint16 (v : ℕ) (h : v < 32768)
    (rest : List BItem) :
    readVarUint16 ((writeVarUint16 v).map .byte ++ rest) = some (v, rest) := by
  unfold writeVarUint16 readVarUint16
  by_cases hv : v < 128
  · simp [hv, readUint8]
  · simp only [if_neg hv, List.map_cons, List.map_nil, List.cons_append,
      List.nil_append, readUint8, Option.bind_eq_bind, Option.some_bind]
    have h128 : ¬ v % 128 + 128 < 128 := by omega
    simp only [if_neg h128, Option.some_bind]
    have hval : (v % 128 + 128) % 128 + v / 128 % 256 * 128 = v := by
      have hd : v / 128 % 256 = v / 128 := Nat.mod_eq_of_lt (by omega)
      have hm : (v % 128 + 128) % 128 = v % 128 := by omega
      rw [hd, hm]
      omega
    rw [hval]
    rfl

/-! ## Claim C3: varuint16 round trip -/

/-- C3 (amended): `readVarUint16(writeVarUint16(v)) = v` holds exactly for
line numbers `v` in `0..32767`.  The two-byte form keeps only bits 0–14
(`uint8(val >> 7)` truncates), so the claimed range `0..65535` is too
large; values `32768..65535` lose bit 15 (see the counterexample). -/
theorem c3_varuint16_roundtrip (v : ℕ) (h : v < 32768) (rest : List BItem) :
    readVarUint16 ((writeVarUint16 v).map .byte ++ rest) = some (v, rest) :=
  readVarUint16_writeVarUint16 v h rest

/-- C3 witness: the round trip at the two-byte value 300. -/
theorem c3_witness :
    300 < 32768 ∧
    readVarUint16 ((writeVarUint16 300).map .byte ++ []) = some (300, []) :=
  ⟨by norm_num, c3_varuint16_roundtrip 300 (by norm_num) []⟩

/-- C3 counterexample: the claim asserts the round trip for all of
`0..65535`, but 32768 encodes to the bytes `[0x80, 0x00]` and decodes to
0. -/
theorem c3_counterexample :
    readVarUint16 ((writeVarUint16 32768).map .byte) = some (0, []) ∧
    (0 : ℕ) ≠ 32768 :=
  ⟨rfl, by decide⟩

/-! ## Claim C2: constant pool round trip -/

theorem int8OfByte_byteOfInt (n : ℤ) (h1 : -127 ≤ n) (h2 : n ≤ 127) :
    int8OfByte (byteOfInt n) = n := by
  simp only [int8OfByte, byteOfInt]
  split <;> omega

theorem goTrunc_natCast (n : ℕ) : goTrunc (n : ℚ) = n := by
  simp [goTrunc, Rat.num_natCast, Rat.den_natCast, Int.tdiv]

/-- C2: every constant admissible in the pool (number — float64 or
small-int —, string, funcptr, bool, nil) reads back from its written
binary form unchanged; in particular at the small-int boundaries (`int`
−127 and 127, and −128, which the parser produces as the float64 −128 and
which takes the 8-byte float form since the writer's small-int test is
`val >= -127`) and at the short-string boundaries (0-, 255- and 256-byte
strings). -/
theorem c2_constant_roundtrip (c : Constant) (h : Admissible c)
    (rest : List BItem) :
    (writeConstant c).bind (fun bs => readConstant (bs ++ rest)) =
      some (c, rest) := by
  obtain ⟨value, type⟩ := c
  rcases h with ⟨ht, hfloat | hint⟩ | ⟨ht, s, hv, hlen⟩ | ⟨ht, n, hn, hv⟩ |
    ⟨ht, bb, hv⟩ | ⟨ht, hv⟩
  · obtain ⟨q, hv⟩ := hfloat
    simp only at ht hv
    subst ht hv
    simp [writeConstant, readConstant, readUint8, readF64]
  · obtain ⟨n, hv, hlo, hhi⟩ := hint
    simp only at ht hv
    subst ht hv
    simp only [writeConstant, if_pos (And.intro hlo hhi), Option.some_bind,
      List.cons_append, List.nil_append, readConstant, readUint8,
      Option.bind_eq_bind, Option.some_bind]
    norm_num
    rw [int8OfByte_byteOfInt n hlo hhi]
  · simp only at ht hv
    subst ht hv
    by_cases hs : s.length ≤ 255
    · simp only [writeConstant, if_pos hs, Option.some_bind,
        List.cons_append, readConstant, readUint8, Option.bind_eq_bind,
        Option.some_bind]
      rw [if_pos (by decide : ((65 : ℕ) &&& 64 ≠ 0))]
      simp [readBytes_map_byte]
    · simp only [writeConstant, if_neg hs, Option.some_bind,
        List.cons_append, List.append_assoc, readConstant, readUint8,
        Option.bind_eq_bind, Option.some_bind]
      norm_num
      have hmod : s.length % 4294967296 = s.length := Nat.mod_eq_of_lt (by omega)
      rw [hmod, readVarUint_writeVarUint s.length hlen
        (s.map BItem.byte ++ rest)]
      simp [readBytes_map_byte]
  · simp only at ht hv
    subst ht hv
    simp only [writeConstant, goFloatToUint32, goTrunc_natCast]
    rw [if_pos (by exact ⟨Int.ofNat_nonneg n, by exact_mod_cast hn⟩)]
    simp only [Int.toNat_natCast, Option.some_bind, List.cons_append,
      readConstant, readUint8, Option.bind_eq_bind, Option.some_bind]
    norm_num
    rw [readVarUint_writeVarUint n hn rest]
    rfl
  · simp only at ht hv
    subst ht hv
    cases bb <;>
      simp [writeConstant, readConstant, readUint8]
  · simp only at ht hv
    subst ht hv
    simp [writeConstant, readConstant, readUint8]

/-- C2 witness: the round trip applied at the fast-path boundaries —
number −128 (a float64, as the parser produces numbers), the small ints
127 and −127, the 0-, 255- and 256-byte strings — and at a funcptr, a
bool and nil. -/
theorem c2_witness :
    (writeConstant ⟨vfloat (-128), "number"⟩).bind
      (fun bs => readConstant (bs ++ [])) =
        some (⟨vfloat (-128), "number"⟩, []) ∧
    (writeConstant ⟨vint 127, "number"⟩).bind
      (fun bs => readConstant (bs ++ [])) = some (⟨vint 127, "number"⟩, []) ∧
    (writeConstant ⟨vint (-127), "number"⟩).bind
      (fun bs => readConstant (bs ++ [])) =
        some (⟨vint (-127), "number"⟩, []) ∧
    (writeConstant ⟨vstr [], "string"⟩).bind
      (fun bs => readConstant (bs ++ [])) = some (⟨vstr [], "string"⟩, []) ∧
    (writeConstant ⟨vstr (List.replicate 255 97), "string"⟩).bind
      (fun bs => readConstant (bs ++ [])) =
        some (⟨vstr (List.replicate 255 97), "string"⟩, []) ∧
    (writeConstant ⟨vstr (List.replicate 256 97), "string"⟩).bind
      (fun bs => readConstant (bs ++ [])) =
        some (⟨vstr (List.replicate 256 97), "string"⟩, []) ∧
    (writeConstant ⟨vfloat 7, "funcptr"⟩).bind
      (fun bs => readConstant (bs ++ [])) = some (⟨vfloat 7, "funcptr"⟩, []) ∧
    (writeConstant ⟨vbool true, "bool"⟩).bind
      (fun bs => readConstant (bs ++ [])) = some (⟨vbool true, "bool"⟩, []) ∧
    (writeConstant ⟨vnil, "nil"⟩).bind
      (fun bs => readConstant (bs ++ [])) = some (⟨vnil, "nil"⟩, []) :=
  ⟨c2_constant_roundtrip _ (Or.inl ⟨rfl, Or.inl ⟨-128, rfl⟩⟩) [],
   c2_constant_roundtrip _ (Or.inl ⟨rfl, Or.inr ⟨127, rfl, by norm_num,
     by norm_num⟩⟩) [],
   c2_constant_roundtrip _ (Or.inl ⟨rfl, Or.inr ⟨-127, rfl, by norm_num,
     by norm_num⟩⟩) [],
   c2_constant_roundtrip _ (Or.inr (Or.inl ⟨rfl, [], rfl, by norm_num⟩)) [],
   c2_constant_roundtrip _ (Or.inr (Or.inl ⟨rfl, List.replicate 255 97, rfl,
     by norm_num⟩)) [],
   c2_constant_roundtrip _ (Or.inr (Or.inl ⟨rfl, List.replicate 256 97, rfl,
     by norm_num⟩)) [],
   c2_constant_roundtrip _ (Or.inr (Or.inr (Or.inl ⟨rfl, 7, by norm_num,
     by norm_num⟩))) [],
   c2_constant_roundtrip _ (Or.inr (Or.inr (Or.inr (Or.inl
     ⟨rfl, true, rfl⟩)))) [],
   c2_constant_roundtrip _ (Or.inr (Or.inr (Or.inr (Or.inr
     ⟨rfl, rfl⟩)))) []⟩

/-! ## Claim C1: instruction round trip through the bytecode file -/

/-- C1 (code bug): the writer encodes the integer-valued float64 argument
`1` of a `Constant` instruction as `ArgTypeInt` followed by a **raw 4-byte
little-endian int32**, but the reader decodes an `ArgTypeInt` argument as
a **zig-zag varuint**; decoding the written file yields the argument
`float64(-1)` instead of `1` (and leaves three stray bytes in the stream).
The round trip `decode(encode(instruction)) = instruction` therefore fails
on the writer's own output. -/
theorem c1_writer_reader_mismatch :
    (writeBytecode [c1Instr] []).bind readBytecode =
      some ([⟨OpConstant, vfloat (-1), 0⟩], []) ∧
    c1Instr = ⟨OpConstant, vfloat 1, 0⟩ ∧ (1 : ℚ) ≠ -1 :=
  ⟨rfl, rfl, by norm_num⟩

/-! ## Claim C6: jump targets after back-patching -/

/-- C6 (code bug): emitting `while true do break end` (then `Halt`) yields
five instructions whose break jump, at index 2, carries the argument −1.
`BreakNode.Emit` emits `Jump -1` and nothing ever patches it — the
builder's `LoopStack` is pushed and popped but never read — so the claim
that after back-patching every `Jump`/`JumpIfFalse` argument is a valid
instruction index in `[0, N]` fails on every loop containing `break`
(here N = 5 and the argument is −1). -/
theorem c6_break_jump_unpatched :
    (buildProgram breakLoopProg).instructions =
      [⟨OpConstant, vfloat 0, 0⟩, ⟨OpJumpIfFalse, vint 4, 0⟩,
       ⟨OpJump, vint (-1), 0⟩, ⟨OpJump, vint 0, 0⟩, ⟨OpHalt, vnil, 0⟩] ∧
    ¬ (0 ≤ (-1 : ℤ)) := by
  refine ⟨?_, by norm_num⟩
  set_option maxRecDepth 4000 in rfl

/-! ## Claim C9: Pop on an empty stack -/

/-- C9: the `OpPop` handler guards with `if v.Sp > 0`: at `sp = 0` the
state is returned unchanged (no value removed, no error), at `sp > 0` the
stack pointer drops by exactly one, and on every state the handler
succeeds — it never calls `VM.pop`, so the stack-underflow panic is
unreachable from `Pop`. -/
theorem c9_pop_no_underflow (B : Registry) (st : VMState) :
    (st.sp = 0 → execPOp B .pop st = .ok st) ∧
    (0 < st.sp → execPOp B .pop st = .ok { st with sp := st.sp - 1 }) ∧
    (∃ st', execPOp B .pop st = .ok st') := by
  refine ⟨fun h => by simp [execPOp, h], fun h => by simp [execPOp, h], ?_⟩
  by_cases h : 0 < st.sp
  · exact ⟨{ st with sp := st.sp - 1 }, by simp [execPOp, h]⟩
  · exact ⟨st, by simp [execPOp, h]⟩

/-- C9 witness: `Pop` at `sp = 0` and at `sp = 1`. -/
theorem c9_witness :
    execPOp emptyRegistry .pop ⟨[vnil], 0, [⟨0, 0, 0⟩], []⟩ =
      .ok ⟨[vnil], 0, [⟨0, 0, 0⟩], []⟩ ∧
    execPOp emptyRegistry .pop ⟨[vnil], 1, [⟨0, 0, 0⟩], []⟩ =
      .ok ⟨[vnil], 0, [⟨0, 0, 0⟩], []⟩ :=
  ⟨(c9_pop_no_underflow emptyRegistry _).1 rfl, by
    have := (c9_pop_no_underflow emptyRegistry
      ⟨[vnil], 1, [⟨0, 0, 0⟩], []⟩).2.1 (by norm_num)
    simpa using this⟩

/-! ## Stack-shape helpers -/

theorem vmPop_eq (st : VMState) (pre : List GoVal) (x : GoVal)
    (suf : List GoVal) (hstack : st.stack = pre ++ x :: suf)
    (hsp : st.sp = (pre.length : ℤ) + 1) :
    vmPop st = .ok (x, { st with sp := pre.length }) := by
  unfold vmPop
  rw [if_neg (by omega)]
  unfold listGetZ
  have hidx : (st.sp - 1).toNat = pre.length := by omega
  have hlen : st.stack.length = pre.length + 1 + suf.length := by
    simp [hstack]
    omega
  rw [if_pos (by constructor <;> omega)]
  have hget : st.stack.getD (st.sp - 1).toNat vnil = x := by
    rw [hstack, hidx]
    simp [List.getD, List.getElem?_append_right (Nat.le_refl pre.length)]
  rw [hget, hsp]
  norm_num

theorem vmPush_eq (st : VMState) (pre : List GoVal) (x : GoVal)
    (suf : List GoVal) (val : GoVal) (hstack : st.stack = pre ++ x :: suf)
    (hsp : st.sp = (pre.length : ℤ)) :
    vmPush st val =
      .ok { st with stack := pre ++ val :: suf, sp := (pre.length : ℤ) + 1 } := by
  unfold vmPush
  have hlen : st.stack.length = pre.length + 1 + suf.length := by
    simp [hstack]
    omega
  rw [if_neg (by omega)]
  unfold listSetZ
  dsimp only
  rw [if_pos (by constructor <;> omega)]
  have hset : st.stack.set st.sp.toNat val = pre ++ val :: suf := by
    rw [hstack, show st.sp.toNat = pre.length by omega,
      List.set_append_right _ _ (Nat.le_refl pre.length)]
    simp
  rw [hset, hsp]

theorem except_ok_bind {α β : Type} (a : α) (f : α → Except VMErr β) :
    (Except.ok a >>= f) = f a := rfl

/-! ## Claim C10: SetIndex on a non-container -/

/-- C10: `OpSetIndex` pops value, index and container; when the container
is neither an array nor a table the switch has no matching case, so all
three operands are discarded, nothing is pushed and no error is reported —
the stack height drops by exactly 3 — while the array and table cases push
the container back for a net drop of 2. -/
theorem c10_setindex_non_container (B : Registry) (pre : List GoVal)
    (c i v : GoVal) (post : List GoVal) (cs : List Frame)
    (g : List (List ℕ × GoVal)) :
    (isContainer c = false →
      execPOp B .setIndex
          ⟨pre ++ c :: i :: v :: post, (pre.length : ℤ) + 3, cs, g⟩ =
        .ok ⟨pre ++ c :: i :: v :: post, (pre.length : ℤ), cs, g⟩) ∧
    (∀ t, c = varr t →
      execPOp B .setIndex
          ⟨pre ++ c :: i :: v :: post, (pre.length : ℤ) + 3, cs, g⟩ =
        .ok ⟨pre ++
          varr (if 0 ≤ setIndexArrIdx i ∧ (setIndexArrIdx i).toNat < t.length
            then t.set (setIndexArrIdx i).toNat v else t) :: i :: v :: post,
          (pre.length : ℤ) + 1, cs, g⟩) ∧
    (∀ t, c = vmap t →
      execPOp B .setIndex
          ⟨pre ++ c :: i :: v :: post, (pre.length : ℤ) + 3, cs, g⟩ =
        .ok ⟨pre ++ vmap (mapInsert t (goSprintf i) v) :: i :: v :: post,
          (pre.length : ℤ) + 1, cs, g⟩) := by
  have h1 : vmPop ⟨pre ++ c :: i :: v :: post, (pre.length : ℤ) + 3, cs, g⟩ =
      .ok (v, ⟨pre ++ c :: i :: v :: post, (pre.length : ℤ) + 2, cs, g⟩) := by
    have := vmPop_eq ⟨pre ++ c :: i :: v :: post, (pre.length : ℤ) + 3, cs, g⟩
      (pre ++ [c, i]) v post (by simp) (by simp; push_cast; ring)
    simpa using this
  have h2 : vmPop ⟨pre ++ c :: i :: v :: post, (pre.length : ℤ) + 2, cs, g⟩ =
      .ok (i, ⟨pre ++ c :: i :: v :: post, (pre.length : ℤ) + 1, cs, g⟩) := by
    have := vmPop_eq ⟨pre ++ c :: i :: v :: post, (pre.length : ℤ) + 2, cs, g⟩
      (pre ++ [c]) i (v :: post) (by simp) (by simp; push_cast; ring)
    simpa using this
  have h3 : vmPop ⟨pre ++ c :: i :: v :: post, (pre.length : ℤ) + 1, cs, g⟩ =
      .ok (c, ⟨pre ++ c :: i :: v :: post, (pre.length : ℤ), cs, g⟩) := by
    have := vmPop_eq ⟨pre ++ c :: i :: v :: post, (pre.length : ℤ) + 1, cs, g⟩
      pre c (i :: v :: post) (by simp) (by simp)
    simpa using this
  refine ⟨?_, ?_, ?_⟩
  · intro hc
    simp only [execPOp, h1, h2, h3, except_ok_bind]
    cases c <;> simp_all [isContainer]
  · rintro t rfl
    simp only [execPOp, h1, h2, h3, except_ok_bind]
    exact vmPush_eq _ pre (varr t) (i :: v :: post) _ rfl rfl
  · rintro t rfl
    simp only [execPOp, h1, h2, h3, except_ok_bind]
    exact vmPush_eq _ pre (vmap t) (i :: v :: post) _ rfl rfl

/-- C10 witness: `SetIndex` with a number as container drops all three
operands (sp 3 → 0); with an array container the updated array is pushed
back (sp 3 → 1). -/
theorem c10_witness :
    isContainer (vfloat 5) = false ∧
    execPOp emptyRegistry .setIndex
        ⟨[vfloat 5, vfloat 0, vnil], 3, [], []⟩ =
      .ok ⟨[vfloat 5, vfloat 0, vnil], 0, [], []⟩ ∧
    execPOp emptyRegistry .setIndex
        ⟨[varr [vnil], vfloat 0, vbool true], 3, [], []⟩ =
      .ok ⟨[varr [vbool true], vfloat 0, vbool true], 1, [], []⟩ := by
  refine ⟨rfl, ?_, ?_⟩
  · have := (c10_setindex_non_container emptyRegistry [] (vfloat 5) (vfloat 0)
      vnil [] [] []).1 rfl
    simpa using this
  · have := (c10_setindex_non_container emptyRegistry [] (varr [vnil])
      (vfloat 0) (vbool true) [] [] []).2.1 [vnil] rfl
    simpa [setIndexArrIdx, goTrunc] using this

/-! ## Claim C8: division by zero -/

/-- C8: `OpDiv` pops the divisor `b` then the dividend `a`; whenever the
divisor is zero (a float64 zero takes the fast path, anything else is
coerced by `toFloat64`, so a non-numeric divisor also counts as zero) the
handler returns the "div by zero" runtime error without pushing anything,
and the `Run` loop surfaces that error immediately, terminating the run.
For a nonzero divisor the quotient is pushed and no error occurs. -/
theorem c8_div_by_zero (B : Registry) (pre : List GoVal) (a b : GoVal)
    (post : List GoVal) (cs : List Frame) (g : List (List ℕ × GoVal)) :
    (toFloat64 b = 0 →
      execPOp B .div ⟨pre ++ a :: b :: post, (pre.length : ℤ) + 2, cs, g⟩ =
        .error .divByZero) ∧
    (toFloat64 b ≠ 0 →
      execPOp B .div ⟨pre ++ a :: b :: post, (pre.length : ℤ) + 2, cs, g⟩ =
        .ok ⟨pre ++ vfloat (toFloat64 a / toFloat64 b) :: b :: post,
          (pre.length : ℤ) + 1, cs, g⟩) ∧
    (∀ (ops : List POp) (f : Frame) (rest : List Frame) (fuel : ℕ),
      toFloat64 b = 0 → 0 ≤ f.ip → f.ip < (ops.length : ℤ) →
      ops.getD f.ip.toNat .nop = .div →
      runVM B ops (fuel + 1)
          ⟨pre ++ a :: b :: post, (pre.length : ℤ) + 2, f :: rest, g⟩ =
        .failed .divByZero ⟨pre ++ a :: b :: post, (pre.length : ℤ) + 2,
          { f with ip := f.ip + 1 } :: rest, g⟩) := by
  have h1 : ∀ cs' : List Frame,
      vmPop ⟨pre ++ a :: b :: post, (pre.length : ℤ) + 2, cs', g⟩ =
      .ok (b, ⟨pre ++ a :: b :: post, (pre.length : ℤ) + 1, cs', g⟩) := by
    intro cs'
    have := vmPop_eq ⟨pre ++ a :: b :: post, (pre.length : ℤ) + 2, cs', g⟩
      (pre ++ [a]) b post (by simp) (by simp; push_cast; ring)
    simpa using this
  have h2 : ∀ cs' : List Frame,
      vmPop ⟨pre ++ a :: b :: post, (pre.length : ℤ) + 1, cs', g⟩ =
      .ok (a, ⟨pre ++ a :: b :: post, (pre.length : ℤ), cs', g⟩) := by
    intro cs'
    have := vmPop_eq ⟨pre ++ a :: b :: post, (pre.length : ℤ) + 1, cs', g⟩
      pre a (b :: post) (by simp) (by simp)
    simpa using this
  refine ⟨?_, ?_, ?_⟩
  · intro hz
    simp only [execPOp, h1, h2, except_ok_bind]
    rw [if_pos hz]
  · intro hz
    simp only [execPOp, h1, h2, except_ok_bind]
    rw [if_neg hz]
    exact vmPush_eq _ pre a (b :: post) _ rfl rfl
  · intro ops f rest fuel hz hip0 hiplt hop
    rw [runVM]
    have hstep : vmStep B ops
        ⟨pre ++ a :: b :: post, (pre.length : ℤ) + 2, f :: rest, g⟩ =
        .failed .divByZero ⟨pre ++ a :: b :: post, (pre.length : ℤ) + 2,
          { f with ip := f.ip + 1 } :: rest, g⟩ := by
      unfold vmStep
      dsimp only
      rw [if_pos hiplt, if_pos hip0, hop]
      have hdiv : execPOp B .div
          ⟨pre ++ a :: b :: post, (pre.length : ℤ) + 2,
            { f with ip := f.ip + 1 } :: rest, g⟩ = .error .divByZero := by
        simp only [execPOp, h1, h2, except_ok_bind]
        rw [if_pos hz]
      rw [hdiv]
    rw [hstep]

/-- C8 witness: `1/0` errors, `6/2` pushes `3.0`. -/
theorem c8_witness :
    toFloat64 (vfloat 0) = 0 ∧
    execPOp emptyRegistry .div ⟨[vfloat 1, vfloat 0], 2, [], []⟩ =
      .error .divByZero ∧
    execPOp emptyRegistry .div ⟨[vfloat 6, vfloat 2], 2, [], []⟩ =
      .ok ⟨[vfloat 3, vfloat 2], 1, [], []⟩ := by
  refine ⟨rfl, ?_, ?_⟩
  · have := (c8_div_by_zero emptyRegistry [] (vfloat 1) (vfloat 0)
      [] [] []).1 rfl
    simpa using this
  · have := (c8_div_by_zero emptyRegistry [] (vfloat 6) (vfloat 2)
      [] [] []).2.1 (by norm_num [toFloat64])
    simpa [toFloat64, show (6 : ℚ) / 2 = 3 by norm_num] using this

/-! ## Claim C4: truthiness of Not and JumpIfFalse -/

/-- C4 (amended): the falsy test shared by `OpNot` and `OpJumpIfFalse` is
`val == nil || val == 0.0 || val == false || val == ""`; by Go interface
equality the `0.0` case matches only a `float64` zero.  `Not` pushes 1.0
exactly on the four values nil, float64 0, false and the empty string, and
`JumpIfFalse` redirects the instruction pointer exactly on those same
values.  A number 0 carried as a Go `int` — as the small-int constant
decoding and the for-in lowering produce — is *not* among them (see the
counterexample). -/
theorem c4_truthiness (B : Registry) (pre : List GoVal) (val : GoVal)
    (post : List GoVal) (cs : List Frame) (g : List (List ℕ × GoVal)) :
    (goFalsy val = true ↔
      (val = vnil ∨ val = vfloat 0 ∨ val = vbool false ∨ val = vstr [])) ∧
    execPOp B .opnot ⟨pre ++ val :: post, (pre.length : ℤ) + 1, cs, g⟩ =
      .ok ⟨pre ++ (if goFalsy val then vfloat 1 else vfloat 0) :: post,
        (pre.length : ℤ) + 1, cs, g⟩ ∧
    (∀ (t : ℤ) (f : Frame) (rest : List Frame),
      execPOp B (.jumpIfFalse t)
          ⟨pre ++ val :: post, (pre.length : ℤ) + 1, f :: rest, g⟩ =
        .ok ⟨pre ++ val :: post, (pre.length : ℤ),
          (if goFalsy val then { f with ip := t } else f) :: rest, g⟩) := by
  have h1 : ∀ cs' : List Frame,
      vmPop ⟨pre ++ val :: post, (pre.length : ℤ) + 1, cs', g⟩ =
      .ok (val, ⟨pre ++ val :: post, (pre.length : ℤ), cs', g⟩) := by
    intro cs'
    have := vmPop_eq ⟨pre ++ val :: post, (pre.length : ℤ) + 1, cs', g⟩
      pre val post (by simp) (by simp)
    simpa using this
  refine ⟨?_, ?_, ?_⟩
  · cases val <;> simp [goFalsy]
  · simp only [execPOp, h1, except_ok_bind]
    cases hf : goFalsy val <;> simp only [if_neg, if_pos, Bool.false_eq_true,
      if_false, if_true] <;>
      exact vmPush_eq _ pre val post _ rfl rfl
  · intro t f rest
    simp only [execPOp, h1, except_ok_bind]
    cases hf : goFalsy val
    · simp
    · simp [setFrameIp]

/-- C4 counterexample: the runtime value `int 0` *is* the number 0 — the
VM's own numeric coercion maps it to `0.0` — yet `Not` executed on it
pushes `0.0` (treats it as truthy, where the claim requires `1.0`) and
`JumpIfFalse` does not jump (the frame keeps ip 4 instead of taking the
target 9). -/
theorem c4_counterexample :
    toFloat64 (vint 0) = 0 ∧
    execPOp emptyRegistry .opnot ⟨[vint 0], 1, [], []⟩ =
      .ok ⟨[vfloat 0], 1, [], []⟩ ∧
    execPOp emptyRegistry (.jumpIfFalse 9) ⟨[vint 0], 1, [⟨4, 0, 0⟩], []⟩ =
      .ok ⟨[vint 0], 0, [⟨4, 0, 0⟩], []⟩ :=
  ⟨rfl, rfl, rfl⟩

/-! ## Emitter extension lemmas (for claim C5)

Emission only ever appends instructions and rewrites arguments of
instructions at positions at or beyond the length the builder had when the
emitting construct started; in particular every already-emitted prefix
survives unchanged. -/

theorem instrExt_trans {i1 i2 i3 : List Instruction}
    (h1 : ∃ t, i2 = i1 ++ t) (h2 : ∃ t, i3 = i2 ++ t) :
    ∃ t, i3 = i1 ++ t := by
  obtain ⟨t1, rfl⟩ := h1
  obtain ⟨t2, rfl⟩ := h2
  exact ⟨t1 ++ t2, by simp⟩

theorem ext_len {i1 i2 : List Instruction} (h : ∃ t, i2 = i1 ++ t) :
    i1.length ≤ i2.length := by
  obtain ⟨t, rfl⟩ := h
  simp

theorem emit_ext (b : Builder) (op : ℕ) (arg : GoVal) :
    ∃ t, (b.emit op arg).instructions = b.instructions ++ t :=
  ⟨_, rfl⟩

theorem updateInstruction_ext (b : Builder) (idx : ℤ) (arg : GoVal)
    (pre : List Instruction) (hb : ∃ t, b.instructions = pre ++ t)
    (hidx : (pre.length : ℤ) ≤ idx) :
    ∃ t, (b.updateInstruction idx arg).instructions = pre ++ t := by
  obtain ⟨t, ht⟩ := hb
  unfold Builder.updateInstruction
  split
  · rename_i h
    refine ⟨t.set (idx.toNat - pre.length)
      ⟨(b.instructions.getD idx.toNat ⟨0, vnil, 0⟩).op, arg,
        (b.instructions.getD idx.toNat ⟨0, vnil, 0⟩).line⟩, ?_⟩
    simp only [ht]
    rw [List.set_append_right _ _ (by omega)]
  · exact ⟨t, ht⟩

theorem foldl_update_ext (pre : List Instruction) (arg : GoVal) :
    ∀ (idxs : List ℤ) (b : Builder), (∃ t, b.instructions = pre ++ t) →
    (∀ i ∈ idxs, (pre.length : ℤ) ≤ i) →
    ∃ t, (idxs.foldl (fun bb idx => bb.updateInstruction idx arg)
      b).instructions = pre ++ t := by
  intro idxs
  induction idxs with
  | nil =>
      intro b h _
      simpa using h
  | cons i is ih =>
      intro b h hall
      simp only [List.foldl_cons]
      exact ih _ (updateInstruction_ext b i arg pre h (hall i (by simp)))
        (fun j hj => hall j (by simp [hj]))

theorem define_instructions (b : Builder) (name : String) (isLocal : Bool) :
    (b.define name isLocal).2.instructions = b.instructions := rfl

theorem defineParams_instructions (ps : List String) :
    ∀ b : Builder, (defineParams b ps).instructions = b.instructions := by
  induction ps with
  | nil =>
      intro b
      rfl
  | cons p ps ih =>
      intro b
      rw [defineParams, ih, define_instructions]

theorem emit_ext2 {b : Builder} {pre : List Instruction} (op : ℕ)
    (arg : GoVal) (h : ∃ t, b.instructions = pre ++ t) :
    ∃ t, (b.emit op arg).instructions = pre ++ t := by
  obtain ⟨t, ht⟩ := h
  exact ⟨t ++ [⟨op, arg, 0⟩], by simp [Builder.emit, ht]⟩

theorem addConstant_fst_ext {b : Builder} {pre : List Instruction}
    (val : GoVal) (typ : String) (h : ∃ t, b.instructions = pre ++ t) :
    ∃ t, ((b.addConstant val typ).1).instructions = pre ++ t := h

theorem define_snd_ext {b : Builder} {pre : List Instruction}
    (name : String) (isLocal : Bool) (h : ∃ t, b.instructions = pre ++ t) :
    ∃ t, ((b.define name isLocal).2).instructions = pre ++ t := h

theorem pushLoop_ext {b : Builder} {pre : List Instruction} (idx : ℤ)
    (h : ∃ t, b.instructions = pre ++ t) :
    ∃ t, ((b.pushLoop idx)).instructions = pre ++ t := h

theorem popLoop_ext {b : Builder} {pre : List Instruction}
    (h : ∃ t, b.instructions = pre ++ t) :
    ∃ t, ((b.popLoop)).instructions = pre ++ t := h

set_option maxHeartbeats 1000000

mutual

theorem emitNode_ext (n : Node) :
    ∀ (b : Builder) (pre : List Instruction),
    (∃ t, b.instructions = pre ++ t) →
    ∃ t, (emitNode n b).instructions = pre ++ t := by
  cases n with
  | LiteralNode v ty =>
      intro b pre hb
      rw [emitNode]
      unfold emitLiteral
      dsimp only [Builder.addConstant]
      exact emit_ext2 _ _ hb
  | VariableNode name =>
      intro b pre hb
      rw [emitNode]
      rcases hres : symResolve b.symTabs name with ⟨isLoc, idx⟩
      simp only [hres]
      cases isLoc
      · rw [if_neg (by simp)]
        exact emit_ext2 _ _ hb
      · rw [if_pos rfl]
        exact emit_ext2 _ _ hb
  | UnaryOpNode op right =>
      intro b pre hb
      rw [emitNode]
      try dsimp only
      have h1 := emitNode_ext right b pre hb
      split
      · exact emit_ext2 _ _ h1
      · exact h1
  | BinaryOpNode left op right =>
      intro b pre hb
      rw [emitNode]
      try dsimp only
      have h2 := emitNode_ext right (emitNode left b) pre
        (emitNode_ext left b pre hb)
      rcases hbo : binOpCode op with _ | opc <;> simp only [hbo]
      · exact h2
      · exact emit_ext2 _ _ h2
  | AssignmentNode name expr isLocal index =>
      intro b pre hb
      rw [emitNode]
      try dsimp only
      have h1 := emitNode_ext expr b pre hb
      split
      · rcases hdef : (emitNode expr b).define name true with ⟨i, b2⟩
        have hb2 : ∃ t, b2.instructions = pre ++ t := by
          have hh := define_instructions (emitNode expr b) name true
          rw [hdef] at hh
          rw [show (i, b2).2 = b2 from rfl] at hh
          rw [hh]
          exact h1
        simp only [hdef]
        split
        · exact emit_ext2 _ _ hb2
        · exact emit_ext2 _ _ hb2
      · rcases hres : symResolve (emitNode expr b).symTabs name with ⟨isLoc, idx⟩
        simp only [hres]
        cases isLoc
        · rw [if_neg (by simp)]
          exact emit_ext2 _ _ h1
        · rw [if_pos rfl]
          exact emit_ext2 _ _ h1
  | IndexAssignNode table index value =>
      intro b pre hb
      rw [emitNode]
      try dsimp only
      exact emit_ext2 _ _ (emitNode_ext value _ pre
        (emitNode_ext index _ pre (emitNode_ext table b pre hb)))
  | ExprStmtNode expr =>
      intro b pre hb
      rw [emitNode]
      exact emit_ext2 _ _ (emitNode_ext expr b pre hb)
  | CallNode target args callType indirectTarget =>
      intro b pre hb
      rw [emitNode]
      try dsimp only
      have h1 := emitNodes_ext args b pre hb
      split
      · dsimp only [Builder.addConstant]
        exact emit_ext2 _ _ (emit_ext2 _ _ h1)
      · dsimp only [Builder.addConstant]
        exact emit_ext2 _ _ (emit_ext2 _ _
          (emitOptNode_ext indirectTarget _ pre h1))
  | TableLiteralNode keys values isArray =>
      intro b pre hb
      rw [emitNode]
      try dsimp only
      split
      · exact emit_ext2 _ _ (emitNodes_ext values b pre hb)
      · exact emitTableEntries_ext keys values _ pre (emit_ext2 _ _ hb)
  | IndexAccessNode table index =>
      intro b pre hb
      rw [emitNode]
      exact emit_ext2 _ _ (emitNode_ext index _ pre
        (emitNode_ext table b pre hb))
  | WhileLoopNode condition body =>
      intro b pre hb
      rw [emitNode]
      dsimp only [Builder.pushLoop, Builder.popLoop]
      refine updateInstruction_ext _ _ _ pre ?_ ?_
      · exact emit_ext2 _ _ (emitNodes_ext body _ pre (emit_ext2 _ _
          (emitNode_ext condition _ pre hb)))
      · have := ext_len (emitNode_ext condition
          { b with loopStack := b.loopStack ++ [(b.instructions.length : ℤ)] }
          pre hb)
        exact_mod_cast this
  | IfNode conditions bodies elseBody =>
      intro b pre hb
      rw [emitNode]
      try dsimp only
      rcases hbr : emitIfBranches conditions bodies (!elseBody.isNil) b with
        ⟨b1, endJumps⟩
      have hbr' := emitIfBranches_ext conditions bodies (!elseBody.isNil)
        b pre hb
      rw [hbr] at hbr'
      obtain ⟨hext1, hbound⟩ := hbr'
      simp only [hbr]
      exact foldl_update_ext pre _ endJumps _
        (emitNodes_ext elseBody b1 pre hext1) hbound
  | FuncDefNode name params body =>
      intro b pre hb
      rw [emitNode]
      exact emit_ext2 _ _ (emitFuncCommon_ext params body b pre hb)
  | AnonymousFuncNode params body =>
      intro b pre hb
      rw [emitNode]
      exact emitFuncCommon_ext params body b pre hb
  | ReturnNode value =>
      intro b pre hb
      rw [emitNode.eq_def]
      try dsimp only
      cases value with
      | some v =>
          exact emit_ext2 _ _ (emitNode_ext v b pre hb)
      | none =>
          dsimp only [Builder.addConstant]
          exact emit_ext2 _ _ (emit_ext2 _ _ hb)
  | BreakNode =>
      intro b pre hb
      rw [emitNode]
      exact emit_ext2 _ _ hb
  | ForLoopNode init cond update body loopVar collection type =>
      intro b pre hb
      rw [emitNode]
      try dsimp only
      split
      · exact emitForIn_ext body loopVar collection b pre hb
      · exact emitForCstyle_ext init cond update body b pre hb
termination_by (sizeOf n, 0)

theorem emitFuncCommon_ext (params : List String) (body : NodeList) :
    ∀ (b : Builder) (pre : List Instruction),
    (∃ t, b.instructions = pre ++ t) →
    ∃ t, (emitFuncCommon params body b).instructions = pre ++ t := by
  intro b pre hb
  rw [emitFuncCommon]
  dsimp only [Builder.pushScope, Builder.popScope]
  have hb2 : ∃ t, (defineParams
      { b.emit OpJump (vint 0) with
        symTabs := newSymTab true :: (b.emit OpJump (vint 0)).symTabs }
      params).instructions = pre ++ t := by
    rw [defineParams_instructions]
    exact emit_ext2 _ _ hb
  have h3 := emitNodes_ext body _ pre hb2
  have hidx : (pre.length : ℤ) ≤
      ((b.emit OpJump (vint 0)).instructions.length : ℤ) - 1 := by
    have h0 := ext_len hb
    simp only [Builder.emit, List.length_append, List.length_cons,
      List.length_nil]
    omega
  split
  · dsimp only [Builder.addConstant]
    refine emit_ext2 _ _ (updateInstruction_ext _ _ _ pre ?_ hidx)
    exact emit_ext2 _ _ (emit_ext2 _ _ h3)
  · exact emit_ext2 _ _ (updateInstruction_ext _ _ _ pre h3 hidx)
termination_by (sizeOf body, 3)

theorem emitUpdateOrInit_ext (node : Node) :
    ∀ (b : Builder) (pre : List Instruction),
    (∃ t, b.instructions = pre ++ t) →
    ∃ t, (emitUpdateOrInit node b).instructions = pre ++ t := by
  intro b pre hb
  rw [emitUpdateOrInit.eq_def]
  split
  · rename_i name expr isLocal index
    dsimp only
    have h1 := emitNode_ext expr b pre hb
    rcases hres : symResolve (emitNode expr b).symTabs name with ⟨isLoc, idx⟩
    simp only [hres]
    cases isLoc
    · rw [if_neg (by simp)]
      exact emit_ext2 _ _ (emit_ext2 _ _ h1)
    · rw [if_pos rfl]
      exact emit_ext2 _ _ (emit_ext2 _ _ h1)
  · exact emit_ext2 _ _ (emitNode_ext _ b pre hb)
termination_by (sizeOf node, 1)

theorem emitForCstyle_ext (init cond update : OptNode) (body : NodeList) :
    ∀ (b : Builder) (pre : List Instruction),
    (∃ t, b.instructions = pre ++ t) →
    ∃ t, (emitForCstyle init cond update body b).instructions = pre ++ t := by
  intro b pre hb
  cases init with
  | some n =>
      have h0 := emitUpdateOrInit_ext n b pre hb
      rw [emitForCstyle.eq_def]
      dsimp only [Builder.pushLoop, Builder.popLoop]
      cases cond with
      | some c =>
          refine updateInstruction_ext _ _ _ pre ?_ ?_
          · cases update with
            | some u =>
                dsimp only
                exact emit_ext2 _ _ (emitUpdateOrInit_ext u _ pre
                  (emitNodes_ext body _ pre (emit_ext2 _ _
                    (emitNode_ext c _ pre h0))))
            | none =>
                dsimp only
                exact emit_ext2 _ _ (emitNodes_ext body _ pre (emit_ext2 _ _
                  (emitNode_ext c _ pre h0)))
          · exact Nat.cast_le.mpr (ext_len (emitNode_ext c _ pre
              (by exact h0)))
      | none =>
          cases update with
          | some u =>
              dsimp only
              exact emit_ext2 _ _ (emitUpdateOrInit_ext u _ pre
                (emitNodes_ext body _ pre h0))
          | none =>
              dsimp only
              exact emit_ext2 _ _ (emitNodes_ext body _ pre h0)
  | none =>
      rw [emitForCstyle.eq_def]
      dsimp only [Builder.pushLoop, Builder.popLoop]
      cases cond with
      | some c =>
          refine updateInstruction_ext _ _ _ pre ?_ ?_
          · cases update with
            | some u =>
                dsimp only
                exact emit_ext2 _ _ (emitUpdateOrInit_ext u _ pre
                  (emitNodes_ext body _ pre (emit_ext2 _ _
                    (emitNode_ext c _ pre hb))))
            | none =>
                dsimp only
                exact emit_ext2 _ _ (emitNodes_ext body _ pre (emit_ext2 _ _
                  (emitNode_ext c _ pre hb)))
          · exact Nat.cast_le.mpr (ext_len (emitNode_ext c _ pre
              (by exact hb)))
      | none =>
          cases update with
          | some u =>
              dsimp only
              exact emit_ext2 _ _ (emitUpdateOrInit_ext u _ pre
                (emitNodes_ext body _ pre hb))
          | none =>
              dsimp only
              exact emit_ext2 _ _ (emitNodes_ext body _ pre hb)
termination_by (sizeOf init + sizeOf cond + sizeOf update + sizeOf body, 3)

theorem emitForIn_ext (body : NodeList) (loopVar : String)
    (collection : OptNode) :
    ∀ (b : Builder) (pre : List Instruction),
    (∃ t, b.instructions = pre ++ t) →
    ∃ t, (emitForIn body loopVar collection b).instructions = pre ++ t := by
  intro b pre hb
  rw [emitForIn.eq_def]
  dsimp only
  refine popLoop_ext (updateInstruction_ext _ _ _ pre ?_ ?_)
  · refine emit_ext2 _ _ ?_
    refine emit_ext2 _ _ ?_
    refine emit_ext2 _ _ ?_
    refine emit_ext2 _ _ ?_
    refine addConstant_fst_ext _ _ ?_
    refine emit_ext2 _ _ ?_
    refine emitNodes_ext body _ pre ?_
    refine emit_ext2 _ _ ?_
    refine define_snd_ext _ _ ?_
    refine emit_ext2 _ _ ?_
    refine emit_ext2 _ _ ?_
    refine emitOptNode_ext collection _ pre ?_
    refine emit_ext2 _ _ ?_
    refine emit_ext2 _ _ ?_
    refine emit_ext2 _ _ ?_
    refine emit_ext2 _ _ ?_
    refine addConstant_fst_ext _ _ ?_
    refine emitOptNode_ext collection _ pre ?_
    refine emit_ext2 _ _ ?_
    refine pushLoop_ext _ ?_
    refine emit_ext2 _ _ ?_
    refine emit_ext2 _ _ ?_
    refine addConstant_fst_ext _ _ ?_
    refine define_snd_ext _ _ ?_
    refine emit_ext2 _ _ ?_
    refine emit_ext2 _ _ ?_
    refine addConstant_fst_ext _ _ ?_
    exact emitOptNode_ext collection b pre hb
  · refine Nat.cast_le.mpr (ext_len ?_)
    refine emit_ext2 _ _ ?_
    refine emit_ext2 _ _ ?_
    refine emit_ext2 _ _ ?_
    refine addConstant_fst_ext _ _ ?_
    refine emitOptNode_ext collection _ pre ?_
    refine emit_ext2 _ _ ?_
    refine pushLoop_ext _ ?_
    refine emit_ext2 _ _ ?_
    refine emit_ext2 _ _ ?_
    refine addConstant_fst_ext _ _ ?_
    refine define_snd_ext _ _ ?_
    refine emit_ext2 _ _ ?_
    refine emit_ext2 _ _ ?_
    refine addConstant_fst_ext _ _ ?_
    exact emitOptNode_ext collection b pre hb
termination_by (sizeOf body + sizeOf collection, 3)
decreasing_by
  all_goals simp_wf
  all_goals apply Prod.Lex.left
  all_goals
    (first
      | (have hbb : 0 < sizeOf body := by cases body <;> simp <;> try omega
         have hcc : 0 < sizeOf collection := by
           cases collection <;> simp <;> try omega
         omega)
      | omega)

theorem emitIfBranches_ext (conds : NodeList) (bodies : NodeListList)
    (hasElse : Bool) :
    ∀ (b : Builder) (pre : List Instruction),
    (∃ t, b.instructions = pre ++ t) →
    (∃ t, (emitIfBranches conds bodies hasElse b).1.instructions =
      pre ++ t) ∧
    ∀ i ∈ (emitIfBranches conds bodies hasElse b).2,
      (pre.length : ℤ) ≤ i := by
  cases conds with
  | nil =>
      intro b pre hb
      rw [emitIfBranches]
      exact ⟨hb, by simp⟩
  | cons c cs =>
      intro b pre hb
      rw [emitIfBranches]
      dsimp only
      have h1 := emitNode_ext c b pre hb
      have h3 := emitNodes_ext bodies.headD _ pre (emit_ext2 OpJumpIfFalse
        (vint 0) h1)
      by_cases hc : (!cs.isNil || hasElse) = true
      · rw [if_pos hc]
        dsimp only
        have h5 := updateInstruction_ext
          ((emitNodes bodies.headD ((emitNode c b).emit OpJumpIfFalse
            (vint 0))).emit OpJump (vint 0))
          ((emitNode c b).instructions.length)
          (vint ((emitNodes bodies.headD ((emitNode c b).emit OpJumpIfFalse
            (vint 0))).emit OpJump (vint 0)).instructions.length)
          pre (emit_ext2 _ _ h3) (Nat.cast_le.mpr (ext_len h1))
        have hrec := emitIfBranches_ext cs bodies.tailD hasElse _ pre h5
        refine ⟨hrec.1, ?_⟩
        intro i hi
        rcases List.mem_append.mp hi with hi | hi
        · have hi' : i = ((emitNodes bodies.headD ((emitNode c b).emit
              OpJumpIfFalse (vint 0))).instructions.length : ℤ) :=
            List.mem_singleton.mp hi
          rw [hi']
          exact Nat.cast_le.mpr (ext_len h3)
        · exact hrec.2 i hi
      · rw [if_neg hc]
        dsimp only
        have h5 := updateInstruction_ext
          (emitNodes bodies.headD ((emitNode c b).emit OpJumpIfFalse
            (vint 0)))
          ((emitNode c b).instructions.length)
          (vint (emitNodes bodies.headD ((emitNode c b).emit OpJumpIfFalse
            (vint 0))).instructions.length)
          pre h3 (Nat.cast_le.mpr (ext_len h1))
        have hrec := emitIfBranches_ext cs bodies.tailD hasElse _ pre h5
        refine ⟨hrec.1, ?_⟩
        intro i hi
        rcases List.mem_append.mp hi with hi | hi
        · simp at hi
        · exact hrec.2 i hi
termination_by (sizeOf conds + sizeOf bodies, 3)
decreasing_by
  all_goals simp_wf
  all_goals apply Prod.Lex.left
  all_goals
    (have hh : sizeOf bodies.headD ≤ sizeOf bodies := by
      cases bodies <;> simp [NodeListList.headD] <;> try omega
     have ht : sizeOf bodies.tailD ≤ sizeOf bodies := by
      cases bodies <;> simp [NodeListList.tailD] <;> try omega
     omega)

theorem emitOptNode_ext (o : OptNode) :
    ∀ (b : Builder) (pre : List Instruction),
    (∃ t, b.instructions = pre ++ t) →
    ∃ t, (emitOptNode o b).instructions = pre ++ t := by
  cases o with
  | some n =>
      intro b pre hb
      rw [emitOptNode]
      exact emitNode_ext n b pre hb
  | none =>
      intro b pre hb
      rw [emitOptNode]
      exact hb
termination_by (sizeOf o, 1)

theorem emitNodes_ext (l : NodeList) :
    ∀ (b : Builder) (pre : List Instruction),
    (∃ t, b.instructions = pre ++ t) →
    ∃ t, (emitNodes l b).instructions = pre ++ t := by
  cases l with
  | nil =>
      intro b pre hb
      rw [emitNodes]
      exact hb
  | cons h t =>
      intro b pre hb
      rw [emitNodes]
      exact emitNodes_ext t _ pre (emitNode_ext h b pre hb)
termination_by (sizeOf l, 2)

theorem emitTableEntries_ext (keys : List String) (values : NodeList) :
    ∀ (b : Builder) (pre : List Instruction),
    (∃ t, b.instructions = pre ++ t) →
    ∃ t, (emitTableEntries keys values b).instructions = pre ++ t := by
  cases keys with
  | nil =>
      intro b pre hb
      rw [emitTableEntries]
      · exact hb
      · intro k ks v vs h1 h2
        exact List.noConfusion h1
  | cons k ks =>
      cases values with
      | nil =>
          intro b pre hb
          rw [emitTableEntries]
          · exact hb
          · intro k1 ks1 v vs h1 h2
            exact NodeList.noConfusion h2
      | cons v vs =>
          intro b pre hb
          rw [emitTableEntries]
          dsimp only [Builder.addConstant]
          exact emitTableEntries_ext ks vs _ pre (emit_ext2 _ _
            (emitNode_ext v _ pre (emit_ext2 _ _ hb)))
termination_by (sizeOf values, 1)

end

/-! ## C5 helper lemmas -/

theorem getD_append_lt {α : Type} (l l' : List α) (d : α) (n : ℕ)
    (h : n < l.length) : (l ++ l').getD n d = l.getD n d := by
  simp [List.getD_eq_getElem?_getD, List.getElem?_append, h]

theorem getD_concat_len {α : Type} (l : List α) (x d : α) :
    (l ++ [x]).getD l.length d = x := by
  simp [List.getD_eq_getElem?_getD, List.getElem?_append]

theorem getD_set_self {α : Type} (l : List α) (i : ℕ) (a d : α)
    (h : i < l.length) : (l.set i a).getD i d = a := by
  simp [List.getD_eq_getElem?_getD, List.getElem?_set_self, h]

theorem getD_set_ne {α : Type} (l : List α) (i j : ℕ) (a d : α)
    (h : i ≠ j) : (l.set i a).getD j d = l.getD j d := by
  simp [List.getD_eq_getElem?_getD, List.getElem?_set_ne h]

theorem getLastD_eq_getD {α : Type} (l : List α) (d : α) :
    l.getLastD d = l.getD (l.length - 1) d := by
  rw [List.getLastD_eq_getLast?, List.getLast?_eq_getElem?,
    List.getD_eq_getElem?_getD]

theorem getD_default_irrel {α : Type} (l : List α) (n : ℕ) (d1 d2 : α)
    (h : n < l.length) : l.getD n d1 = l.getD n d2 := by
  rw [List.getD_eq_getElem l d1 h, List.getD_eq_getElem l d2 h]

theorem updateInstruction_instr (b : Builder) (idx : ℤ) (arg : GoVal)
    (h0 : 0 ≤ idx) (h1 : idx < (b.instructions.length : ℤ)) :
    (b.updateInstruction idx arg).instructions =
      b.instructions.set idx.toNat
        ⟨(b.instructions.getD idx.toNat ⟨0, vnil, 0⟩).op, arg,
         (b.instructions.getD idx.toNat ⟨0, vnil, 0⟩).line⟩ := by
  unfold Builder.updateInstruction
  rw [if_pos ⟨h0, h1⟩]

/-- `emitFuncCommon` always leaves a guard jump at the original length
whose target `T` is the first index after the emitted body, with a
`Return` as the body's final instruction and a trailing `MakeFunc`. -/
theorem emitFuncCommon_return (params : List String) (body : NodeList)
    (b : Builder) :
    ∃ T, b.instructions.length + 2 ≤ T ∧
      T + 1 = (emitFuncCommon params body b).instructions.length ∧
      bodyEndsReturn (emitFuncCommon params body b)
        b.instructions.length T := by
  obtain ⟨t, ht⟩ := emitNodes_ext body
    (defineParams (Builder.pushScope (b.emit OpJump (vint 0))) params)
    (b.instructions ++ [⟨OpJump, vint 0, 0⟩])
    ⟨[], by
      rw [defineParams_instructions]
      simp [Builder.pushScope, Builder.emit]⟩
  rw [emitFuncCommon]
  dsimp only
  generalize hE : emitNodes body
    (defineParams (Builder.pushScope (b.emit OpJump (vint 0))) params) = E
  rw [hE] at ht
  by_cases hC : E.instructions.length = 0 ∨
      (E.instructions.getLastD ⟨0, vnil, 0⟩).op ≠ OpReturn
  · rw [if_pos hC]
    dsimp only [Builder.emit, Builder.addConstant, Builder.pushScope,
      Builder.popScope]
    rw [ht]
    rw [updateInstruction_instr _ _ _
      (by simp only [List.length_append, List.length_cons, List.length_nil, List.length_set]; omega)
      (by simp only [List.length_append, List.length_cons, List.length_nil, List.length_set]; omega)]
    dsimp only
    have hidx : ((((b.instructions ++
        [(⟨OpJump, vint 0, 0⟩ : Instruction)]).length : ℕ) : ℤ) - 1).toNat
        = b.instructions.length := by simp
    rw [hidx]
    have hold : ((b.instructions ++ [(⟨OpJump, vint 0, 0⟩ : Instruction)]
        ++ t ++ [(⟨OpConstant, vfloat (E.constants.length : ℚ), 0⟩
          : Instruction)]
        ++ [(⟨OpReturn, vnil, 0⟩ : Instruction)]).getD
          b.instructions.length ⟨0, vnil, 0⟩)
        = ⟨OpJump, vint 0, 0⟩ := by
      rw [getD_append_lt _ _ _ _ (by simp only [List.length_append, List.length_cons, List.length_nil, List.length_set]; omega),
        getD_append_lt _ _ _ _ (by simp only [List.length_append, List.length_cons, List.length_nil, List.length_set]; omega),
        getD_append_lt _ _ _ _ (by simp only [List.length_append, List.length_cons, List.length_nil, List.length_set]; omega),
        getD_concat_len]
    rw [hold]
    refine ⟨(b.instructions ++ [(⟨OpJump, vint 0, 0⟩ : Instruction)]
        ++ t ++ [(⟨OpConstant, vfloat (E.constants.length : ℚ), 0⟩
          : Instruction)]
        ++ [(⟨OpReturn, vnil, 0⟩ : Instruction)]).length, ?_, ?_, ?_⟩
    · simp only [List.length_append, List.length_cons, List.length_nil, List.length_set]
      try omega
    · simp only [List.length_append, List.length_cons, List.length_nil, List.length_set]
      try omega
    · unfold bodyEndsReturn
      refine ⟨?_, ?_⟩
      · rw [getD_append_lt _ _ _ _ (by simp only [List.length_append, List.length_cons, List.length_nil, List.length_set]; omega),
          getD_set_self _ _ _ _ (by simp only [List.length_append, List.length_cons, List.length_nil, List.length_set]; omega)]
      · rw [getD_append_lt _ _ _ _ (by simp only [List.length_append, List.length_cons, List.length_nil, List.length_set]; omega),
          getD_set_ne _ _ _ _ _ (by simp only [List.length_append, List.length_cons, List.length_nil, List.length_set]; omega)]
        rw [show (b.instructions ++ [(⟨OpJump, vint 0, 0⟩ : Instruction)]
          ++ t ++ [(⟨OpConstant, vfloat (E.constants.length : ℚ), 0⟩
            : Instruction)]
          ++ [(⟨OpReturn, vnil, 0⟩ : Instruction)]).length - 1
          = (b.instructions ++ [(⟨OpJump, vint 0, 0⟩ : Instruction)]
          ++ t ++ [(⟨OpConstant, vfloat (E.constants.length : ℚ), 0⟩
            : Instruction)]).length
          from by simp only [List.length_append, List.length_cons, List.length_nil, List.length_set]; omega]
        rw [getD_concat_len]
  · rw [if_neg hC]
    push_neg at hC
    obtain ⟨hne, hret⟩ := hC
    rw [ht] at hne hret
    have htne : t ≠ [] := by
      intro h0
      rw [h0, List.append_nil] at hret
      rw [getLastD_eq_getD] at hret
      rw [show (b.instructions
          ++ [(⟨OpJump, vint 0, 0⟩ : Instruction)]).length - 1
          = b.instructions.length from by simp] at hret
      rw [getD_concat_len] at hret
      exact absurd hret (by decide)
    have htlen : 0 < t.length := List.length_pos.mpr htne
    dsimp only [Builder.emit, Builder.addConstant, Builder.pushScope,
      Builder.popScope]
    rw [ht]
    rw [updateInstruction_instr _ _ _
      (by simp only [List.length_append, List.length_cons, List.length_nil, List.length_set]; omega)
      (by simp only [List.length_append, List.length_cons, List.length_nil, List.length_set]; omega)]
    dsimp only
    have hidx : ((((b.instructions ++
        [(⟨OpJump, vint 0, 0⟩ : Instruction)]).length : ℕ) : ℤ) - 1).toNat
        = b.instructions.length := by simp
    rw [hidx]
    have hold : ((b.instructions ++ [(⟨OpJump, vint 0, 0⟩ : Instruction)]
        ++ t).getD b.instructions.length ⟨0, vnil, 0⟩)
        = ⟨OpJump, vint 0, 0⟩ := by
      rw [getD_append_lt _ _ _ _ (by simp only [List.length_append, List.length_cons, List.length_nil, List.length_set]; omega), getD_concat_len]
    rw [hold]
    refine ⟨(b.instructions ++ [(⟨OpJump, vint 0, 0⟩ : Instruction)]
        ++ t).length, ?_, ?_, ?_⟩
    · simp only [List.length_append, List.length_cons, List.length_nil, List.length_set]
      try omega
    · simp only [List.length_append, List.length_cons, List.length_nil, List.length_set]
      try omega
    · unfold bodyEndsReturn
      refine ⟨?_, ?_⟩
      · rw [getD_append_lt _ _ _ _ (by simp only [List.length_append, List.length_cons, List.length_nil, List.length_set]; omega),
          getD_set_self _ _ _ _ (by simp only [List.length_append, List.length_cons, List.length_nil, List.length_set]; omega)]
      · rw [getD_append_lt _ _ _ _ (by simp only [List.length_append, List.length_cons, List.length_nil, List.length_set]; omega),
          getD_set_ne _ _ _ _ _ (by simp only [List.length_append, List.length_cons, List.length_nil, List.length_set]; omega)]
        rw [getD_default_irrel _ _ _ (⟨0, vnil, 0⟩ : Instruction)
          (by simp only [List.length_append, List.length_cons, List.length_nil, List.length_set]; omega)]
        rw [← getLastD_eq_getD]
        exact hret

/-- C5 (corrected): for every function definition handed to the emitter —
named (`FuncDefNode.Emit`) or anonymous (`AnonymousFuncNode.Emit`) — the
emitted function body ends with a `Return` instruction: the guard jump
emitted at the pre-emission length carries a patched target `T` at least
two slots further on, and the instruction at `T - 1`, the last
instruction of the emitted body region, is a `Return` (the implicit nil
`Return` is appended exactly when the last *emitted* instruction is not
already a `Return`).  The claim's stronger reading — a `Return` is the
last instruction executed on *every exit path*, so execution can never
run past the body — is false; see the counterexample. -/
theorem c5_function_body_ends_in_return (name : String)
    (params : List String) (body : NodeList) (b : Builder) :
    (∃ T, b.instructions.length + 2 ≤ T ∧
      bodyEndsReturn (emitNode (.FuncDefNode name params body) b)
        b.instructions.length T) ∧
    (∃ T, b.instructions.length + 2 ≤ T ∧
      bodyEndsReturn (emitNode (.AnonymousFuncNode params body) b)
        b.instructions.length T) := by
  obtain ⟨T, hle, hlen, hbe⟩ := emitFuncCommon_return params body b
  have hj := hbe.1
  have hr := hbe.2
  constructor
  · refine ⟨T, hle, ?_⟩
    unfold bodyEndsReturn
    refine ⟨?_, ?_⟩
    · rw [emitNode]
      dsimp only [Builder.emit]
      rw [getD_append_lt _ _ _ _ (by omega)]
      exact hj
    · rw [emitNode]
      dsimp only [Builder.emit]
      rw [getD_append_lt _ _ _ _ (by omega)]
      exact hr
  · refine ⟨T, hle, ?_⟩
    rw [emitNode]
    unfold bodyEndsReturn
    exact ⟨hj, hr⟩

set_option maxRecDepth 2000 in
/-- Staged evaluation of the example build: the whole builder run as one
definitional reduction overflows, so the nested emissions are evaluated
node by node. -/
theorem c5_build_eval : buildProgram funcIfReturnProg = (⟨[⟨OpJump, vint 5, 0⟩, ⟨OpConstant, vfloat 0, 0⟩, ⟨OpJumpIfFalse, vint 5, 0⟩, ⟨OpConstant, vfloat 1, 0⟩, ⟨OpReturn, vnil, 0⟩, ⟨OpMakeFunc, vfloat 2, 0⟩, ⟨OpSetGlobal, vstr (strBytes "f"), 0⟩, ⟨OpConstant, vfloat 3, 0⟩, ⟨OpCall, vstr (strBytes "f"), 0⟩, ⟨OpPop, vnil, 0⟩, ⟨OpHalt, vnil, 0⟩], [⟨vfloat 0, "number"⟩, ⟨vfloat 1, "number"⟩, ⟨vfloat 1, "funcptr"⟩, ⟨vfloat 0, "number"⟩], [⟨[], [], false, 0⟩], []⟩ : Builder) := by
  have hCond : emitNode (.LiteralNode (vfloat 0) "number" : Node) (⟨[⟨OpJump, vint 0, 0⟩], [], [⟨[], [], true, 0⟩, ⟨[], [], false, 0⟩], []⟩ : Builder) = (⟨[⟨OpJump, vint 0, 0⟩, ⟨OpConstant, vfloat 0, 0⟩], [⟨vfloat 0, "number"⟩], [⟨[], [], true, 0⟩, ⟨[], [], false, 0⟩], []⟩ : Builder) := rfl
  have hBody : emitNodes (.cons (.ReturnNode (.some (.LiteralNode (vfloat 1) "number")) : Node) .nil)
      ((⟨[⟨OpJump, vint 0, 0⟩, ⟨OpConstant, vfloat 0, 0⟩], [⟨vfloat 0, "number"⟩], [⟨[], [], true, 0⟩, ⟨[], [], false, 0⟩], []⟩ : Builder).emit OpJumpIfFalse (vint 0)) = (⟨[⟨OpJump, vint 0, 0⟩, ⟨OpConstant, vfloat 0, 0⟩, ⟨OpJumpIfFalse, vint 0, 0⟩, ⟨OpConstant, vfloat 1, 0⟩, ⟨OpReturn, vnil, 0⟩], [⟨vfloat 0, "number"⟩, ⟨vfloat 1, "number"⟩], [⟨[], [], true, 0⟩, ⟨[], [], false, 0⟩], []⟩ : Builder) := rfl
  have hIfB : emitIfBranches (.cons (.LiteralNode (vfloat 0) "number") .nil : NodeList) (.cons (.cons (.ReturnNode (.some (.LiteralNode (vfloat 1) "number"))) .nil) .nil : NodeListList)
      (!NodeList.nil.isNil) (⟨[⟨OpJump, vint 0, 0⟩], [], [⟨[], [], true, 0⟩, ⟨[], [], false, 0⟩], []⟩ : Builder) = ((⟨[⟨OpJump, vint 0, 0⟩, ⟨OpConstant, vfloat 0, 0⟩, ⟨OpJumpIfFalse, vint 5, 0⟩, ⟨OpConstant, vfloat 1, 0⟩, ⟨OpReturn, vnil, 0⟩], [⟨vfloat 0, "number"⟩, ⟨vfloat 1, "number"⟩], [⟨[], [], true, 0⟩, ⟨[], [], false, 0⟩], []⟩ : Builder), ([] : List ℤ)) := by
    rw [emitIfBranches]
    dsimp only [NodeListList.headD]
    rw [hCond, hBody]
    rfl
  have hIf : emitNode (.IfNode (.cons (.LiteralNode (vfloat 0) "number") .nil) (.cons (.cons (.ReturnNode (.some (.LiteralNode (vfloat 1) "number"))) .nil) .nil) .nil : Node) (⟨[⟨OpJump, vint 0, 0⟩], [], [⟨[], [], true, 0⟩, ⟨[], [], false, 0⟩], []⟩ : Builder) = (⟨[⟨OpJump, vint 0, 0⟩, ⟨OpConstant, vfloat 0, 0⟩, ⟨OpJumpIfFalse, vint 5, 0⟩, ⟨OpConstant, vfloat 1, 0⟩, ⟨OpReturn, vnil, 0⟩], [⟨vfloat 0, "number"⟩, ⟨vfloat 1, "number"⟩], [⟨[], [], true, 0⟩, ⟨[], [], false, 0⟩], []⟩ : Builder) := by
    rw [emitNode]
    try dsimp only
    rw [hIfB]
    rfl
  have hB3 : emitNodes (.cons (.IfNode (.cons (.LiteralNode (vfloat 0) "number") .nil) (.cons (.cons (.ReturnNode (.some (.LiteralNode (vfloat 1) "number"))) .nil) .nil) .nil) .nil : NodeList) (⟨[⟨OpJump, vint 0, 0⟩], [], [⟨[], [], true, 0⟩, ⟨[], [], false, 0⟩], []⟩ : Builder) = (⟨[⟨OpJump, vint 0, 0⟩, ⟨OpConstant, vfloat 0, 0⟩, ⟨OpJumpIfFalse, vint 5, 0⟩, ⟨OpConstant, vfloat 1, 0⟩, ⟨OpReturn, vnil, 0⟩], [⟨vfloat 0, "number"⟩, ⟨vfloat 1, "number"⟩], [⟨[], [], true, 0⟩, ⟨[], [], false, 0⟩], []⟩ : Builder) := by
    rw [emitNodes]
    rw [hIf]
    rfl
  have hFC : emitFuncCommon [] (.cons (.IfNode (.cons (.LiteralNode (vfloat 0) "number") .nil) (.cons (.cons (.ReturnNode (.some (.LiteralNode (vfloat 1) "number"))) .nil) .nil) .nil) .nil : NodeList) newBuilder = (⟨[⟨OpJump, vint 5, 0⟩, ⟨OpConstant, vfloat 0, 0⟩, ⟨OpJumpIfFalse, vint 5, 0⟩, ⟨OpConstant, vfloat 1, 0⟩, ⟨OpReturn, vnil, 0⟩, ⟨OpMakeFunc, vfloat 2, 0⟩], [⟨vfloat 0, "number"⟩, ⟨vfloat 1, "number"⟩, ⟨vfloat 1, "funcptr"⟩], [⟨[], [], false, 0⟩], []⟩ : Builder) := by
    rw [emitFuncCommon]
    try dsimp only
    rw [show defineParams (Builder.pushScope (newBuilder.emit OpJump
      (vint 0))) [] = (⟨[⟨OpJump, vint 0, 0⟩], [], [⟨[], [], true, 0⟩, ⟨[], [], false, 0⟩], []⟩ : Builder) from rfl]
    rw [hB3]
    rfl
  have hN1 : emitNode (.FuncDefNode "f" [] (.cons (.IfNode (.cons (.LiteralNode (vfloat 0) "number") .nil) (.cons (.cons (.ReturnNode (.some (.LiteralNode (vfloat 1) "number"))) .nil) .nil) .nil) .nil) : Node) newBuilder = (⟨[⟨OpJump, vint 5, 0⟩, ⟨OpConstant, vfloat 0, 0⟩, ⟨OpJumpIfFalse, vint 5, 0⟩, ⟨OpConstant, vfloat 1, 0⟩, ⟨OpReturn, vnil, 0⟩, ⟨OpMakeFunc, vfloat 2, 0⟩, ⟨OpSetGlobal, vstr (strBytes "f"), 0⟩], [⟨vfloat 0, "number"⟩, ⟨vfloat 1, "number"⟩, ⟨vfloat 1, "funcptr"⟩], [⟨[], [], false, 0⟩], []⟩ : Builder) := by
    rw [emitNode]
    try dsimp only
    rw [hFC]
    rfl
  have hN2 : emitNode (.ExprStmtNode (.CallNode "f" .nil "direct" .none) : Node) (⟨[⟨OpJump, vint 5, 0⟩, ⟨OpConstant, vfloat 0, 0⟩, ⟨OpJumpIfFalse, vint 5, 0⟩, ⟨OpConstant, vfloat 1, 0⟩, ⟨OpReturn, vnil, 0⟩, ⟨OpMakeFunc, vfloat 2, 0⟩, ⟨OpSetGlobal, vstr (strBytes "f"), 0⟩], [⟨vfloat 0, "number"⟩, ⟨vfloat 1, "number"⟩, ⟨vfloat 1, "funcptr"⟩], [⟨[], [], false, 0⟩], []⟩ : Builder) = (⟨[⟨OpJump, vint 5, 0⟩, ⟨OpConstant, vfloat 0, 0⟩, ⟨OpJumpIfFalse, vint 5, 0⟩, ⟨OpConstant, vfloat 1, 0⟩, ⟨OpReturn, vnil, 0⟩, ⟨OpMakeFunc, vfloat 2, 0⟩, ⟨OpSetGlobal, vstr (strBytes "f"), 0⟩, ⟨OpConstant, vfloat 3, 0⟩, ⟨OpCall, vstr (strBytes "f"), 0⟩, ⟨OpPop, vnil, 0⟩], [⟨vfloat 0, "number"⟩, ⟨vfloat 1, "number"⟩, ⟨vfloat 1, "funcptr"⟩, ⟨vfloat 0, "number"⟩], [⟨[], [], false, 0⟩], []⟩ : Builder) := rfl
  rw [buildProgram]
  dsimp only [funcIfReturnProg, List.foldl]
  rw [hN1, hN2]
  rfl

theorem vmStep_exec (B : Registry) (ops : List POp) (st : VMState)
    (f : Frame) (rest : List Frame) (hcs : st.callStack = f :: rest)
    (hlt : f.ip < (ops.length : ℤ)) (hge : 0 ≤ f.ip) (st2 : VMState)
    (hex : execPOp B (ops.getD f.ip.toNat .nop)
      { st with callStack := { f with ip := f.ip + 1 } :: rest } =
      .ok st2) :
    vmStep B ops st = .next st2 := by
  unfold vmStep
  rw [hcs]
  dsimp only
  rw [if_pos hlt, if_pos hge, hex]

theorem runSteps_next (B : Registry) (ops : List POp) (n : ℕ)
    (st st2 : VMState) (h : vmStep B ops st = .next st2) :
    runSteps B ops (n + 1) st = runSteps B ops n st2 := by
  rw [runSteps, h]

/-- C5 counterexample to the claim's "can never run past its body": in
`func f() if 0 then return 1 end end; f()` the emitted function occupies
the region [1, 5) guarded by `0: Jump 5`, and its only `Return` sits at
index 4; but `2: JumpIfFalse 5` (the patched branch exit) escapes the
body to index 5 without executing any `Return`.  After eight VM steps
from the initial state the call stack still holds f's frame (depth 2)
with ip 6: the VM just executed instruction 5 (`MakeFunc`), past the end
of f's body. -/
theorem c5_counterexample :
    (buildProgram funcIfReturnProg).instructions.getD 0 ⟨OpNop, vnil, 0⟩ =
      ⟨OpJump, vint 5, 0⟩ ∧
    (buildProgram funcIfReturnProg).instructions.getD 2 ⟨OpNop, vnil, 0⟩ =
      ⟨OpJumpIfFalse, vint 5, 0⟩ ∧
    ((buildProgram funcIfReturnProg).instructions.mapM
        (makeOp (buildProgram funcIfReturnProg).constants)).map
      (fun ops =>
        match runSteps emptyRegistry ops 8 initVMState with
        | .next st => (st.callStack.length, st.topFrame.ip)
        | _ => ((0 : ℕ), (0 : ℤ))) = .ok (2, 6) := by
  have hops : (buildProgram funcIfReturnProg).instructions.mapM
      (makeOp (buildProgram funcIfReturnProg).constants) =
      Except.ok
      [POp.jump 5, POp.constant (vfloat 0), POp.jumpIfFalse 5, POp.constant (vfloat 1), POp.ret, POp.makeFunc (vfloat 1), POp.setGlobal (strBytes "f"), POp.constant (vfloat 0), POp.call (strBytes "f"), POp.pop, POp.halt] := by
    rw [c5_build_eval]
    rfl
  have hex1 : execPOp emptyRegistry (POp.jump 5)
      (⟨List.replicate 8192 vnil, 0, [⟨1, 0, 0⟩], []⟩ : VMState) =
      .ok (⟨List.replicate 8192 vnil, 0, [⟨5, 0, 0⟩], []⟩ : VMState) :=
    rfl
  have h1 : vmStep emptyRegistry
      [POp.jump 5, POp.constant (vfloat 0), POp.jumpIfFalse 5, POp.constant (vfloat 1), POp.ret, POp.makeFunc (vfloat 1), POp.setGlobal (strBytes "f"), POp.constant (vfloat 0), POp.call (strBytes "f"), POp.pop, POp.halt]
      (⟨List.replicate 8192 vnil, 0, [⟨0, 0, 0⟩], []⟩ : VMState) =
      .next (⟨List.replicate 8192 vnil, 0, [⟨5, 0, 0⟩], []⟩ : VMState) :=
    vmStep_exec _ _ _ ⟨0, 0, 0⟩ [] rfl (by decide) (by decide)
      _ hex1
  have hex2 : execPOp emptyRegistry (POp.makeFunc (vfloat 1))
      (⟨List.replicate 8192 vnil, 0, [⟨6, 0, 0⟩], []⟩ : VMState) =
      .ok (⟨vmap [(strBytes "type", vstr (strBytes "function")), (strBytes "entry", vfloat 1)] :: List.replicate 8191 vnil, 1, [⟨6, 0, 0⟩], []⟩ : VMState) :=
    vmPush_eq (⟨List.replicate 8192 vnil, 0, [⟨6, 0, 0⟩], []⟩ : VMState) [] vnil
      (List.replicate 8191 vnil) (vmap [(strBytes "type", vstr (strBytes "function")), (strBytes "entry", vfloat 1)]) rfl rfl
  have h2 : vmStep emptyRegistry
      [POp.jump 5, POp.constant (vfloat 0), POp.jumpIfFalse 5, POp.constant (vfloat 1), POp.ret, POp.makeFunc (vfloat 1), POp.setGlobal (strBytes "f"), POp.constant (vfloat 0), POp.call (strBytes "f"), POp.pop, POp.halt]
      (⟨List.replicate 8192 vnil, 0, [⟨5, 0, 0⟩], []⟩ : VMState) =
      .next (⟨vmap [(strBytes "type", vstr (strBytes "function")), (strBytes "entry", vfloat 1)] :: List.replicate 8191 vnil, 1, [⟨6, 0, 0⟩], []⟩ : VMState) :=
    vmStep_exec _ _ _ ⟨5, 0, 0⟩ [] rfl (by decide) (by decide)
      _ hex2
  have hex3 : execPOp emptyRegistry (POp.setGlobal (strBytes "f"))
      (⟨vmap [(strBytes "type", vstr (strBytes "function")), (strBytes "entry", vfloat 1)] :: List.replicate 8191 vnil, 1, [⟨7, 0, 0⟩], []⟩ : VMState) =
      .ok (⟨vmap [(strBytes "type", vstr (strBytes "function")), (strBytes "entry", vfloat 1)] :: List.replicate 8191 vnil, 0, [⟨7, 0, 0⟩], [(strBytes "f", vmap [(strBytes "type", vstr (strBytes "function")), (strBytes "entry", vfloat 1)])]⟩ : VMState) :=
    by
    unfold execPOp
    dsimp only
    rw [vmPop_eq (⟨vmap [(strBytes "type", vstr (strBytes "function")), (strBytes "entry", vfloat 1)] :: List.replicate 8191 vnil, 1, [⟨7, 0, 0⟩], []⟩ : VMState) [] (vmap [(strBytes "type", vstr (strBytes "function")), (strBytes "entry", vfloat 1)]) (List.replicate 8191 vnil) rfl rfl]
    rw [except_ok_bind]
    rfl
  have h3 : vmStep emptyRegistry
      [POp.jump 5, POp.constant (vfloat 0), POp.jumpIfFalse 5, POp.constant (vfloat 1), POp.ret, POp.makeFunc (vfloat 1), POp.setGlobal (strBytes "f"), POp.constant (vfloat 0), POp.call (strBytes "f"), POp.pop, POp.halt]
      (⟨vmap [(strBytes "type", vstr (strBytes "function")), (strBytes "entry", vfloat 1)] :: List.replicate 8191 vnil, 1, [⟨6, 0, 0⟩], []⟩ : VMState) =
      .next (⟨vmap [(strBytes "type", vstr (strBytes "function")), (strBytes "entry", vfloat 1)] :: List.replicate 8191 vnil, 0, [⟨7, 0, 0⟩], [(strBytes "f", vmap [(strBytes "type", vstr (strBytes "function")), (strBytes "entry", vfloat 1)])]⟩ : VMState) :=
    vmStep_exec _ _ _ ⟨6, 0, 0⟩ [] rfl (by decide) (by decide)
      _ hex3
  have hex4 : execPOp emptyRegistry (POp.constant (vfloat 0))
      (⟨vmap [(strBytes "type", vstr (strBytes "function")), (strBytes "entry", vfloat 1)] :: List.replicate 8191 vnil, 0, [⟨8, 0, 0⟩], [(strBytes "f", vmap [(strBytes "type", vstr (strBytes "function")), (strBytes "entry", vfloat 1)])]⟩ : VMState) =
      .ok (⟨vfloat 0 :: List.replicate 8191 vnil, 1, [⟨8, 0, 0⟩], [(strBytes "f", vmap [(strBytes "type", vstr (strBytes "function")), (strBytes "entry", vfloat 1)])]⟩ : VMState) :=
    vmPush_eq (⟨vmap [(strBytes "type", vstr (strBytes "function")), (strBytes "entry", vfloat 1)] :: List.replicate 8191 vnil, 0, [⟨8, 0, 0⟩], [(strBytes "f", vmap [(strBytes "type", vstr (strBytes "function")), (strBytes "entry", vfloat 1)])]⟩ : VMState) [] (vmap [(strBytes "type", vstr (strBytes "function")), (strBytes "entry", vfloat 1)])
      (List.replicate 8191 vnil) (vfloat 0) rfl rfl
  have h4 : vmStep emptyRegistry
      [POp.jump 5, POp.constant (vfloat 0), POp.jumpIfFalse 5, POp.constant (vfloat 1), POp.ret, POp.makeFunc (vfloat 1), POp.setGlobal (strBytes "f"), POp.constant (vfloat 0), POp.call (strBytes "f"), POp.pop, POp.halt]
      (⟨vmap [(strBytes "type", vstr (strBytes "function")), (strBytes "entry", vfloat 1)] :: List.replicate 8191 vnil, 0, [⟨7, 0, 0⟩], [(strBytes "f", vmap [(strBytes "type", vstr (strBytes "function")), (strBytes "entry", vfloat 1)])]⟩ : VMState) =
      .next (⟨vfloat 0 :: List.replicate 8191 vnil, 1, [⟨8, 0, 0⟩], [(strBytes "f", vmap [(strBytes "type", vstr (strBytes "function")), (strBytes "entry", vfloat 1)])]⟩ : VMState) :=
    vmStep_exec _ _ _ ⟨7, 0, 0⟩ [] rfl (by decide) (by decide)
      _ hex4
  have hex5 : execPOp emptyRegistry (POp.call (strBytes "f"))
      (⟨vfloat 0 :: List.replicate 8191 vnil, 1, [⟨9, 0, 0⟩], [(strBytes "f", vmap [(strBytes "type", vstr (strBytes "function")), (strBytes "entry", vfloat 1)])]⟩ : VMState) =
      .ok (⟨vfloat 0 :: List.replicate 8191 vnil, 0, [⟨1, 0, 0⟩, ⟨9, 0, 0⟩], [(strBytes "f", vmap [(strBytes "type", vstr (strBytes "function")), (strBytes "entry", vfloat 1)])]⟩ : VMState) :=
    by
    unfold execPOp
    dsimp only
    rw [vmPop_eq (⟨vfloat 0 :: List.replicate 8191 vnil, 1, [⟨9, 0, 0⟩], [(strBytes "f", vmap [(strBytes "type", vstr (strBytes "function")), (strBytes "entry", vfloat 1)])]⟩ : VMState) [] (vfloat 0) (List.replicate 8191 vnil) rfl rfl]
    rw [except_ok_bind]
    rfl
  have h5 : vmStep emptyRegistry
      [POp.jump 5, POp.constant (vfloat 0), POp.jumpIfFalse 5, POp.constant (vfloat 1), POp.ret, POp.makeFunc (vfloat 1), POp.setGlobal (strBytes "f"), POp.constant (vfloat 0), POp.call (strBytes "f"), POp.pop, POp.halt]
      (⟨vfloat 0 :: List.replicate 8191 vnil, 1, [⟨8, 0, 0⟩], [(strBytes "f", vmap [(strBytes "type", vstr (strBytes "function")), (strBytes "entry", vfloat 1)])]⟩ : VMState) =
      .next (⟨vfloat 0 :: List.replicate 8191 vnil, 0, [⟨1, 0, 0⟩, ⟨9, 0, 0⟩], [(strBytes "f", vmap [(strBytes "type", vstr (strBytes "function")), (strBytes "entry", vfloat 1)])]⟩ : VMState) :=
    vmStep_exec _ _ _ ⟨8, 0, 0⟩ [] rfl (by decide) (by decide)
      _ hex5
  have hex6 : execPOp emptyRegistry (POp.constant (vfloat 0))
      (⟨vfloat 0 :: List.replicate 8191 vnil, 0, [⟨2, 0, 0⟩, ⟨9, 0, 0⟩], [(strBytes "f", vmap [(strBytes "type", vstr (strBytes "function")), (strBytes "entry", vfloat 1)])]⟩ : VMState) =
      .ok (⟨vfloat 0 :: List.replicate 8191 vnil, 1, [⟨2, 0, 0⟩, ⟨9, 0, 0⟩], [(strBytes "f", vmap [(strBytes "type", vstr (strBytes "function")), (strBytes "entry", vfloat 1)])]⟩ : VMState) :=
    vmPush_eq (⟨vfloat 0 :: List.replicate 8191 vnil, 0, [⟨2, 0, 0⟩, ⟨9, 0, 0⟩], [(strBytes "f", vmap [(strBytes "type", vstr (strBytes "function")), (strBytes "entry", vfloat 1)])]⟩ : VMState) [] (vfloat 0)
      (List.replicate 8191 vnil) (vfloat 0) rfl rfl
  have h6 : vmStep emptyRegistry
      [POp.jump 5, POp.constant (vfloat 0), POp.jumpIfFalse 5, POp.constant (vfloat 1), POp.ret, POp.makeFunc (vfloat 1), POp.setGlobal (strBytes "f"), POp.constant (vfloat 0), POp.call (strBytes "f"), POp.pop, POp.halt]
      (⟨vfloat 0 :: List.replicate 8191 vnil, 0, [⟨1, 0, 0⟩, ⟨9, 0, 0⟩], [(strBytes "f", vmap [(strBytes "type", vstr (strBytes "function")), (strBytes "entry", vfloat 1)])]⟩ : VMState) =
      .next (⟨vfloat 0 :: List.replicate 8191 vnil, 1, [⟨2, 0, 0⟩, ⟨9, 0, 0⟩], [(strBytes "f", vmap [(strBytes "type", vstr (strBytes "function")), (strBytes "entry", vfloat 1)])]⟩ : VMState) :=
    vmStep_exec _ _ _ ⟨1, 0, 0⟩ [⟨9, 0, 0⟩] rfl (by decide) (by decide)
      _ hex6
  have hex7 : execPOp emptyRegistry (POp.jumpIfFalse 5)
      (⟨vfloat 0 :: List.replicate 8191 vnil, 1, [⟨3, 0, 0⟩, ⟨9, 0, 0⟩], [(strBytes "f", vmap [(strBytes "type", vstr (strBytes "function")), (strBytes "entry", vfloat 1)])]⟩ : VMState) =
      .ok (⟨vfloat 0 :: List.replicate 8191 vnil, 0, [⟨5, 0, 0⟩, ⟨9, 0, 0⟩], [(strBytes "f", vmap [(strBytes "type", vstr (strBytes "function")), (strBytes "entry", vfloat 1)])]⟩ : VMState) :=
    by
    unfold execPOp
    dsimp only
    rw [vmPop_eq (⟨vfloat 0 :: List.replicate 8191 vnil, 1, [⟨3, 0, 0⟩, ⟨9, 0, 0⟩], [(strBytes "f", vmap [(strBytes "type", vstr (strBytes "function")), (strBytes "entry", vfloat 1)])]⟩ : VMState) [] (vfloat 0) (List.replicate 8191 vnil) rfl rfl]
    rw [except_ok_bind]
    rfl
  have h7 : vmStep emptyRegistry
      [POp.jump 5, POp.constant (vfloat 0), POp.jumpIfFalse 5, POp.constant (vfloat 1), POp.ret, POp.makeFunc (vfloat 1), POp.setGlobal (strBytes "f"), POp.constant (vfloat 0), POp.call (strBytes "f"), POp.pop, POp.halt]
      (⟨vfloat 0 :: List.replicate 8191 vnil, 1, [⟨2, 0, 0⟩, ⟨9, 0, 0⟩], [(strBytes "f", vmap [(strBytes "type", vstr (strBytes "function")), (strBytes "entry", vfloat 1)])]⟩ : VMState) =
      .next (⟨vfloat 0 :: List.replicate 8191 vnil, 0, [⟨5, 0, 0⟩, ⟨9, 0, 0⟩], [(strBytes "f", vmap [(strBytes "type", vstr (strBytes "function")), (strBytes "entry", vfloat 1)])]⟩ : VMState) :=
    vmStep_exec _ _ _ ⟨2, 0, 0⟩ [⟨9, 0, 0⟩] rfl (by decide) (by decide)
      _ hex7
  have hex8 : execPOp emptyRegistry (POp.makeFunc (vfloat 1))
      (⟨vfloat 0 :: List.replicate 8191 vnil, 0, [⟨6, 0, 0⟩, ⟨9, 0, 0⟩], [(strBytes "f", vmap [(strBytes "type", vstr (strBytes "function")), (strBytes "entry", vfloat 1)])]⟩ : VMState) =
      .ok (⟨vmap [(strBytes "type", vstr (strBytes "function")), (strBytes "entry", vfloat 1)] :: List.replicate 8191 vnil, 1, [⟨6, 0, 0⟩, ⟨9, 0, 0⟩], [(strBytes "f", vmap [(strBytes "type", vstr (strBytes "function")), (strBytes "entry", vfloat 1)])]⟩ : VMState) :=
    vmPush_eq (⟨vfloat 0 :: List.replicate 8191 vnil, 0, [⟨6, 0, 0⟩, ⟨9, 0, 0⟩], [(strBytes "f", vmap [(strBytes "type", vstr (strBytes "function")), (strBytes "entry", vfloat 1)])]⟩ : VMState) [] (vfloat 0)
      (List.replicate 8191 vnil) (vmap [(strBytes "type", vstr (strBytes "function")), (strBytes "entry", vfloat 1)]) rfl rfl
  have h8 : vmStep emptyRegistry
      [POp.jump 5, POp.constant (vfloat 0), POp.jumpIfFalse 5, POp.constant (vfloat 1), POp.ret, POp.makeFunc (vfloat 1), POp.setGlobal (strBytes "f"), POp.constant (vfloat 0), POp.call (strBytes "f"), POp.pop, POp.halt]
      (⟨vfloat 0 :: List.replicate 8191 vnil, 0, [⟨5, 0, 0⟩, ⟨9, 0, 0⟩], [(strBytes "f", vmap [(strBytes "type", vstr (strBytes "function")), (strBytes "entry", vfloat 1)])]⟩ : VMState) =
      .next (⟨vmap [(strBytes "type", vstr (strBytes "function")), (strBytes "entry", vfloat 1)] :: List.replicate 8191 vnil, 1, [⟨6, 0, 0⟩, ⟨9, 0, 0⟩], [(strBytes "f", vmap [(strBytes "type", vstr (strBytes "function")), (strBytes "entry", vfloat 1)])]⟩ : VMState) :=
    vmStep_exec _ _ _ ⟨5, 0, 0⟩ [⟨9, 0, 0⟩] rfl (by decide) (by decide)
      _ hex8
  have e1 : runSteps emptyRegistry
      [POp.jump 5, POp.constant (vfloat 0), POp.jumpIfFalse 5, POp.constant (vfloat 1), POp.ret, POp.makeFunc (vfloat 1), POp.setGlobal (strBytes "f"), POp.constant (vfloat 0), POp.call (strBytes "f"), POp.pop, POp.halt] 8
      initVMState =
      runSteps emptyRegistry
      [POp.jump 5, POp.constant (vfloat 0), POp.jumpIfFalse 5, POp.constant (vfloat 1), POp.ret, POp.makeFunc (vfloat 1), POp.setGlobal (strBytes "f"), POp.constant (vfloat 0), POp.call (strBytes "f"), POp.pop, POp.halt] 7
      (⟨List.replicate 8192 vnil, 0, [⟨5, 0, 0⟩], []⟩ : VMState) :=
    runSteps_next _ _ 7 _ _ h1
  have e2 : runSteps emptyRegistry
      [POp.jump 5, POp.constant (vfloat 0), POp.jumpIfFalse 5, POp.constant (vfloat 1), POp.ret, POp.makeFunc (vfloat 1), POp.setGlobal (strBytes "f"), POp.constant (vfloat 0), POp.call (strBytes "f"), POp.pop, POp.halt] 7
      (⟨List.replicate 8192 vnil, 0, [⟨5, 0, 0⟩], []⟩ : VMState) =
      runSteps emptyRegistry
      [POp.jump 5, POp.constant (vfloat 0), POp.jumpIfFalse 5, POp.constant (vfloat 1), POp.ret, POp.makeFunc (vfloat 1), POp.setGlobal (strBytes "f"), POp.constant (vfloat 0), POp.call (strBytes "f"), POp.pop, POp.halt] 6
      (⟨vmap [(strBytes "type", vstr (strBytes "function")), (strBytes "entry", vfloat 1)] :: List.replicate 8191 vnil, 1, [⟨6, 0, 0⟩], []⟩ : VMState) :=
    runSteps_next _ _ 6 _ _ h2
  have e3 : runSteps emptyRegistry
      [POp.jump 5, POp.constant (vfloat 0), POp.jumpIfFalse 5, POp.constant (vfloat 1), POp.ret, POp.makeFunc (vfloat 1), POp.setGlobal (strBytes "f"), POp.constant (vfloat 0), POp.call (strBytes "f"), POp.pop, POp.halt] 6
      (⟨vmap [(strBytes "type", vstr (strBytes "function")), (strBytes "entry", vfloat 1)] :: List.replicate 8191 vnil, 1, [⟨6, 0, 0⟩], []⟩ : VMState) =
      runSteps emptyRegistry
      [POp.jump 5, POp.constant (vfloat 0), POp.jumpIfFalse 5, POp.constant (vfloat 1), POp.ret, POp.makeFunc (vfloat 1), POp.setGlobal (strBytes "f"), POp.constant (vfloat 0), POp.call (strBytes "f"), POp.pop, POp.halt] 5
      (⟨vmap [(strBytes "type", vstr (strBytes "function")), (strBytes "entry", vfloat 1)] :: List.replicate 8191 vnil, 0, [⟨7, 0, 0⟩], [(strBytes "f", vmap [(strBytes "type", vstr (strBytes "function")), (strBytes "entry", vfloat 1)])]⟩ : VMState) :=
    runSteps_next _ _ 5 _ _ h3
  have e4 : runSteps emptyRegistry
      [POp.jump 5, POp.constant (vfloat 0), POp.jumpIfFalse 5, POp.constant (vfloat 1), POp.ret, POp.makeFunc (vfloat 1), POp.setGlobal (strBytes "f"), POp.constant (vfloat 0), POp.call (strBytes "f"), POp.pop, POp.halt] 5
      (⟨vmap [(strBytes "type", vstr (strBytes "function")), (strBytes "entry", vfloat 1)] :: List.replicate 8191 vnil, 0, [⟨7, 0, 0⟩], [(strBytes "f", vmap [(strBytes "type", vstr (strBytes "function")), (strBytes "entry", vfloat 1)])]⟩ : VMState) =
      runSteps emptyRegistry
      [POp.jump 5, POp.constant (vfloat 0), POp.jumpIfFalse 5, POp.constant (vfloat 1), POp.ret, POp.makeFunc (vfloat 1), POp.setGlobal (strBytes "f"), POp.constant (vfloat 0), POp.call (strBytes "f"), POp.pop, POp.halt] 4
      (⟨vfloat 0 :: List.replicate 8191 vnil, 1, [⟨8, 0, 0⟩], [(strBytes "f", vmap [(strBytes "type", vstr (strBytes "function")), (strBytes "entry", vfloat 1)])]⟩ : VMState) :=
    runSteps_next _ _ 4 _ _ h4
  have e5 : runSteps emptyRegistry
      [POp.jump 5, POp.constant (vfloat 0), POp.jumpIfFalse 5, POp.constant (vfloat 1), POp.ret, POp.makeFunc (vfloat 1), POp.setGlobal (strBytes "f"), POp.constant (vfloat 0), POp.call (strBytes "f"), POp.pop, POp.halt] 4
      (⟨vfloat 0 :: List.replicate 8191 vnil, 1, [⟨8, 0, 0⟩], [(strBytes "f", vmap [(strBytes "type", vstr (strBytes "function")), (strBytes "entry", vfloat 1)])]⟩ : VMState) =
      runSteps emptyRegistry
      [POp.jump 5, POp.constant (vfloat 0), POp.jumpIfFalse 5, POp.constant (vfloat 1), POp.ret, POp.makeFunc (vfloat 1), POp.setGlobal (strBytes "f"), POp.constant (vfloat 0), POp.call (strBytes "f"), POp.pop, POp.halt] 3
      (⟨vfloat 0 :: List.replicate 8191 vnil, 0, [⟨1, 0, 0⟩, ⟨9, 0, 0⟩], [(strBytes "f", vmap [(strBytes "type", vstr (strBytes "function")), (strBytes "entry", vfloat 1)])]⟩ : VMState) :=
    runSteps_next _ _ 3 _ _ h5
  have e6 : runSteps emptyRegistry
      [POp.jump 5, POp.constant (vfloat 0), POp.jumpIfFalse 5, POp.constant (vfloat 1), POp.ret, POp.makeFunc (vfloat 1), POp.setGlobal (strBytes "f"), POp.constant (vfloat 0), POp.call (strBytes "f"), POp.pop, POp.halt] 3
      (⟨vfloat 0 :: List.replicate 8191 vnil, 0, [⟨1, 0, 0⟩, ⟨9, 0, 0⟩], [(strBytes "f", vmap [(strBytes "type", vstr (strBytes "function")), (strBytes "entry", vfloat 1)])]⟩ : VMState) =
      runSteps emptyRegistry
      [POp.jump 5, POp.constant (vfloat 0), POp.jumpIfFalse 5, POp.constant (vfloat 1), POp.ret, POp.makeFunc (vfloat 1), POp.setGlobal (strBytes "f"), POp.constant (vfloat 0), POp.call (strBytes "f"), POp.pop, POp.halt] 2
      (⟨vfloat 0 :: List.replicate 8191 vnil, 1, [⟨2, 0, 0⟩, ⟨9, 0, 0⟩], [(strBytes "f", vmap [(strBytes "type", vstr (strBytes "function")), (strBytes "entry", vfloat 1)])]⟩ : VMState) :=
    runSteps_next _ _ 2 _ _ h6
  have e7 : runSteps emptyRegistry
      [POp.jump 5, POp.constant (vfloat 0), POp.jumpIfFalse 5, POp.constant (vfloat 1), POp.ret, POp.makeFunc (vfloat 1), POp.setGlobal (strBytes "f"), POp.constant (vfloat 0), POp.call (strBytes "f"), POp.pop, POp.halt] 2
      (⟨vfloat 0 :: List.replicate 8191 vnil, 1, [⟨2, 0, 0⟩, ⟨9, 0, 0⟩], [(strBytes "f", vmap [(strBytes "type", vstr (strBytes "function")), (strBytes "entry", vfloat 1)])]⟩ : VMState) =
      runSteps emptyRegistry
      [POp.jump 5, POp.constant (vfloat 0), POp.jumpIfFalse 5, POp.constant (vfloat 1), POp.ret, POp.makeFunc (vfloat 1), POp.setGlobal (strBytes "f"), POp.constant (vfloat 0), POp.call (strBytes "f"), POp.pop, POp.halt] 1
      (⟨vfloat 0 :: List.replicate 8191 vnil, 0, [⟨5, 0, 0⟩, ⟨9, 0, 0⟩], [(strBytes "f", vmap [(strBytes "type", vstr (strBytes "function")), (strBytes "entry", vfloat 1)])]⟩ : VMState) :=
    runSteps_next _ _ 1 _ _ h7
  have e8 : runSteps emptyRegistry
      [POp.jump 5, POp.constant (vfloat 0), POp.jumpIfFalse 5, POp.constant (vfloat 1), POp.ret, POp.makeFunc (vfloat 1), POp.setGlobal (strBytes "f"), POp.constant (vfloat 0), POp.call (strBytes "f"), POp.pop, POp.halt] 1
      (⟨vfloat 0 :: List.replicate 8191 vnil, 0, [⟨5, 0, 0⟩, ⟨9, 0, 0⟩], [(strBytes "f", vmap [(strBytes "type", vstr (strBytes "function")), (strBytes "entry", vfloat 1)])]⟩ : VMState) =
      runSteps emptyRegistry
      [POp.jump 5, POp.constant (vfloat 0), POp.jumpIfFalse 5, POp.constant (vfloat 1), POp.ret, POp.makeFunc (vfloat 1), POp.setGlobal (strBytes "f"), POp.constant (vfloat 0), POp.call (strBytes "f"), POp.pop, POp.halt] 0
      (⟨vmap [(strBytes "type", vstr (strBytes "function")), (strBytes "entry", vfloat 1)] :: List.replicate 8191 vnil, 1, [⟨6, 0, 0⟩, ⟨9, 0, 0⟩], [(strBytes "f", vmap [(strBytes "type", vstr (strBytes "function")), (strBytes "entry", vfloat 1)])]⟩ : VMState) :=
    runSteps_next _ _ 0 _ _ h8
  refine ⟨?_, ?_, ?_⟩
  · rw [c5_build_eval]
    rfl
  · rw [c5_build_eval]
    rfl
  rw [hops]
  dsimp only [Except.map]
  rw [e1, e2, e3, e4, e5, e6, e7, e8]
  rfl

/-! ## C7 helper lemmas: the stack pointer stays nonnegative -/

theorem bind_eq_ok {α β : Type} {x : Except VMErr α}
    {g : α → Except VMErr β} {b : β} (h : (x >>= g) = .ok b) :
    ∃ a, x = .ok a ∧ g a = .ok b := by
  cases x with
  | ok a => exact ⟨a, rfl, h⟩
  | error e => exact absurd h (by simp [Bind.bind, Except.bind])

theorem listSetZ_some_nonneg {l : List GoVal} {i : ℤ} {v : GoVal}
    {l' : List GoVal} (h : listSetZ l i v = some l') : 0 ≤ i := by
  unfold listSetZ at h
  by_cases hc : 0 ≤ i ∧ i.toNat < l.length
  · exact hc.1
  · rw [if_neg hc] at h
    exact absurd h (by simp)

theorem vmPush_ok_sp {st : VMState} {val : GoVal} {st2 : VMState}
    (h : vmPush st val = .ok st2) : 0 ≤ st2.sp := by
  unfold vmPush at h
  dsimp only at h
  split at h
  next s' hm =>
    have h0 := listSetZ_some_nonneg hm
    injection h with h'
    subst h'
    dsimp only
    omega
  next hm => exact absurd h (by simp)

theorem vmPop_ok_sp {st : VMState} {v : GoVal} {st2 : VMState}
    (h : vmPop st = .ok (v, st2)) : 0 ≤ st2.sp := by
  unfold vmPop at h
  split at h
  · exact absurd h (by simp)
  next hsp =>
    split at h
    next v' hm =>
      injection h with h'
      injection h' with hv hst
      subst hst
      dsimp only
      omega
    next => exact absurd h (by simp)

theorem setFrameIp_sp (st : VMState) (t : ℤ) :
    (setFrameIp st t).sp = st.sp := by
  obtain ⟨stk, sp, cs, g⟩ := st
  cases cs <;> rfl

set_option maxHeartbeats 1000000 in
/-- Every successful handler keeps the stack pointer nonnegative: each
op either ends in a bounds-checked `push`/`pop`, restarts from a checked
base, or leaves `Sp` unchanged. -/
theorem execPOp_sp_nonneg (B : Registry) (op : POp) (st st2 : VMState)
    (hsp : 0 ≤ st.sp) (h : execPOp B op st = .ok st2) : 0 ≤ st2.sp := by
  unfold execPOp at h
  cases op with
  | constant val => exact vmPush_ok_sp h
  | table => exact vmPush_ok_sp h
  | arr count =>
      try dsimp only at h
      split at h
      · exact absurd h (by simp)
      · split at h
        next arr hm => exact vmPush_ok_sp h
        next => exact absurd h (by simp)
  | cmpEq =>
      try dsimp only at h
      obtain ⟨⟨b1, s1⟩, hp1, h⟩ := bind_eq_ok h
      try dsimp only at h
      obtain ⟨⟨a1, s2'⟩, hp2, h⟩ := bind_eq_ok h
      try dsimp only at h
      obtain ⟨e1, he1, h⟩ := bind_eq_ok h
      try dsimp only at h
      exact vmPush_ok_sp h
  | cmpNe =>
      try dsimp only at h
      obtain ⟨⟨b1, s1⟩, hp1, h⟩ := bind_eq_ok h
      try dsimp only at h
      obtain ⟨⟨a1, s2'⟩, hp2, h⟩ := bind_eq_ok h
      try dsimp only at h
      obtain ⟨e1, he1, h⟩ := bind_eq_ok h
      try dsimp only at h
      exact vmPush_ok_sp h
  | cmpLt =>
      try dsimp only at h
      obtain ⟨⟨b1, s1⟩, hp1, h⟩ := bind_eq_ok h
      try dsimp only at h
      obtain ⟨⟨a1, s2'⟩, hp2, h⟩ := bind_eq_ok h
      try dsimp only at h
      exact vmPush_ok_sp h
  | cmpLte =>
      try dsimp only at h
      obtain ⟨⟨b1, s1⟩, hp1, h⟩ := bind_eq_ok h
      try dsimp only at h
      obtain ⟨⟨a1, s2'⟩, hp2, h⟩ := bind_eq_ok h
      try dsimp only at h
      exact vmPush_ok_sp h
  | cmpGt =>
      try dsimp only at h
      obtain ⟨⟨b1, s1⟩, hp1, h⟩ := bind_eq_ok h
      try dsimp only at h
      obtain ⟨⟨a1, s2'⟩, hp2, h⟩ := bind_eq_ok h
      try dsimp only at h
      exact vmPush_ok_sp h
  | cmpGte =>
      try dsimp only at h
      obtain ⟨⟨b1, s1⟩, hp1, h⟩ := bind_eq_ok h
      try dsimp only at h
      obtain ⟨⟨a1, s2'⟩, hp2, h⟩ := bind_eq_ok h
      try dsimp only at h
      exact vmPush_ok_sp h
  | add =>
      try dsimp only at h
      obtain ⟨⟨b1, s1⟩, hp1, h⟩ := bind_eq_ok h
      try dsimp only at h
      obtain ⟨⟨a1, s2'⟩, hp2, h⟩ := bind_eq_ok h
      try dsimp only at h
      exact vmPush_ok_sp h
  | sub =>
      try dsimp only at h
      obtain ⟨⟨b1, s1⟩, hp1, h⟩ := bind_eq_ok h
      try dsimp only at h
      obtain ⟨⟨a1, s2'⟩, hp2, h⟩ := bind_eq_ok h
      try dsimp only at h
      exact vmPush_ok_sp h
  | mul =>
      try dsimp only at h
      obtain ⟨⟨b1, s1⟩, hp1, h⟩ := bind_eq_ok h
      try dsimp only at h
      obtain ⟨⟨a1, s2'⟩, hp2, h⟩ := bind_eq_ok h
      try dsimp only at h
      exact vmPush_ok_sp h
  | div =>
      try dsimp only at h
      obtain ⟨⟨b1, s1⟩, hp1, h⟩ := bind_eq_ok h
      try dsimp only at h
      obtain ⟨⟨a1, s2'⟩, hp2, h⟩ := bind_eq_ok h
      try dsimp only at h
      split at h
      · exact absurd h (by simp)
      · exact vmPush_ok_sp h
  | opnot =>
      try dsimp only at h
      obtain ⟨⟨v1, s1⟩, hp1, h⟩ := bind_eq_ok h
      try dsimp only at h
      exact vmPush_ok_sp h
  | setGlobal key =>
      try dsimp only at h
      obtain ⟨⟨v1, s1⟩, hp1, h⟩ := bind_eq_ok h
      try dsimp only at h
      injection h with h'
      subst h'
      have hx := vmPop_ok_sp hp1
      exact hx
  | getGlobal name =>
      try dsimp only at h
      split at h <;> exact vmPush_ok_sp h
  | setLocal idx =>
      try dsimp only at h
      obtain ⟨⟨v1, s1⟩, hp1, h⟩ := bind_eq_ok h
      try dsimp only at h
      split at h
      next s' hm =>
        injection h with h'
        subst h'
        have hx := vmPop_ok_sp hp1
        exact hx
      next => exact absurd h (by simp)
  | getLocal idx =>
      try dsimp only at h
      split at h
      next v hm => exact vmPush_ok_sp h
      next => exact absurd h (by simp)
  | getIndex =>
      try dsimp only at h
      obtain ⟨⟨i1, s1⟩, hp1, h⟩ := bind_eq_ok h
      try dsimp only at h
      obtain ⟨⟨t1, s2'⟩, hp2, h⟩ := bind_eq_ok h
      try dsimp only at h
      repeat' split at h
      all_goals exact vmPush_ok_sp h
  | setIndex =>
      try dsimp only at h
      obtain ⟨⟨v1, s1⟩, hp1, h⟩ := bind_eq_ok h
      try dsimp only at h
      obtain ⟨⟨i1, s2'⟩, hp2, h⟩ := bind_eq_ok h
      try dsimp only at h
      obtain ⟨⟨t1, s3⟩, hp3, h⟩ := bind_eq_ok h
      try dsimp only at h
      repeat' split at h
      all_goals first
        | exact vmPush_ok_sp h
        | (injection h with h'
           subst h'
           exact vmPop_ok_sp hp3)
        | (injection h with h'
           subst h'
           have hx := vmPop_ok_sp hp3
           exact hx)
  | call target =>
      try dsimp only at h
      obtain ⟨⟨cv, s1⟩, hp1, h⟩ := bind_eq_ok h
      try dsimp only at h
      split at h
      · split at h
        · obtain ⟨res, hres, h⟩ := bind_eq_ok h
          try dsimp only at h
          exact vmPush_ok_sp h
        · exact absurd h (by simp)
      · repeat' split at h
        all_goals first
          | (injection h with h'
             subst h'
             have hx := vmPop_ok_sp hp1
             exact hx)
          | exact absurd h (by simp)
  | callIndirect =>
      try dsimp only at h
      obtain ⟨⟨cv, s1⟩, hp1, h⟩ := bind_eq_ok h
      try dsimp only at h
      split at h
      case _ q =>
        try dsimp only at h
        obtain ⟨⟨callee, s2'⟩, hp2, h⟩ := bind_eq_ok h
        try dsimp only at h
        repeat' split at h
        all_goals first
          | (injection h with h'
             subst h'
             have hx := vmPop_ok_sp hp2
             exact hx)
          | exact absurd h (by simp)
      all_goals exact absurd h (by simp)
  | ret =>
      try dsimp only at h
      split at h
      · obtain ⟨⟨rv, s1⟩, hp1, h⟩ := bind_eq_ok h
        try dsimp only at h
        split at h
        · injection h with h'
          subst h'
          exact le_refl 0
        · exact vmPush_ok_sp h
      · rw [except_ok_bind] at h
        try dsimp only at h
        split at h
        · injection h with h'
          subst h'
          exact le_refl 0
        · exact vmPush_ok_sp h
  | makeFunc entry => exact vmPush_ok_sp h
  | jump t =>
      try dsimp only at h
      injection h with h'
      subst h'
      rw [setFrameIp_sp]
      exact hsp
  | jumpIfFalse t =>
      try dsimp only at h
      obtain ⟨⟨cond, s1⟩, hp1, h⟩ := bind_eq_ok h
      try dsimp only at h
      split at h
      · injection h with h'
        subst h'
        rw [setFrameIp_sp]
        exact vmPop_ok_sp hp1
      · injection h with h'
        subst h'
        exact vmPop_ok_sp hp1
  | pop =>
      try dsimp only at h
      split at h
      · injection h with h'
        subst h'
        dsimp only
        omega
      · injection h with h'
        subst h'
        exact hsp
  | halt => exact absurd h (by simp)
  | nop =>
      injection h with h'
      subst h'
      exact hsp

/-- A `next` transition keeps the stack pointer nonnegative. -/
theorem vmStep_next_sp (B : Registry) (ops : List POp) (st st2 : VMState)
    (hsp : 0 ≤ st.sp) (h : vmStep B ops st = .next st2) : 0 ≤ st2.sp := by
  unfold vmStep at h
  split at h
  · exact absurd h (by simp)
  next f rest =>
    split at h
    · split at h
      · try dsimp only at h
        split at h
        next st3 hex =>
          injection h with h'
          subst h'
          refine execPOp_sp_nonneg B _ _ _ ?_ hex
          exact hsp
        next hex => exact absurd h (by simp)
        next e hex hne => exact absurd h (by simp)
      · exact absurd h (by simp)
    · injection h with h'
      subst h'
      exact hsp

/-- A `halted` outcome of one step (the `_HALT_` signal) reports a state
with the same stack pointer. -/
theorem vmStep_halted_sp (B : Registry) (ops : List POp) (st st2 : VMState)
    (hsp : 0 ≤ st.sp) (h : vmStep B ops st = .halted st2) : 0 ≤ st2.sp := by
  unfold vmStep at h
  split at h
  · exact absurd h (by simp)
  next f rest =>
    split at h
    · split at h
      · try dsimp only at h
        split at h
        next st3 hex => exact absurd h (by simp)
        next hex =>
          injection h with h'
          subst h'
          exact hsp
        next e hex hne => exact absurd h (by simp)
      · exact absurd h (by simp)
    · exact absurd h (by simp)

/-- A `finished` outcome (empty call stack, Go's `Run` falling out of its
outer loop) reports the incoming state unchanged. -/
theorem vmStep_finished_sp (B : Registry) (ops : List POp)
    (st st2 : VMState) (hsp : 0 ≤ st.sp)
    (h : vmStep B ops st = .finished st2) : 0 ≤ st2.sp := by
  unfold vmStep at h
  split at h
  · injection h with h'
    subst h'
    exact hsp
  next f rest =>
    split at h
    · split at h
      · try dsimp only at h
        split at h
        next st3 hex => exact absurd h (by simp)
        next hex => exact absurd h (by simp)
        next e hex hne => exact absurd h (by simp)
      · exact absurd h (by simp)
    · exact absurd h (by simp)

/-- Along any fueled run from a state with nonnegative stack pointer, a
`halted` or `finished` outcome reports a state with nonnegative stack
pointer. -/
theorem runVM_normal_sp (B : Registry) (ops : List POp) :
    ∀ (fuel : ℕ) (st st' : VMState), 0 ≤ st.sp →
    (runVM B ops fuel st = .halted st' ∨
      runVM B ops fuel st = .finished st') → 0 ≤ st'.sp := by
  intro fuel
  induction fuel with
  | zero =>
      intro st st' h0 h
      rcases h with h | h <;> exact absurd h (by simp [runVM])
  | succ n ih =>
      intro st st' h0 h
      rcases h with h | h <;> rw [runVM] at h
      · split at h
        next st1 hstep => exact ih st1 st' (vmStep_next_sp _ _ _ _ h0 hstep) (Or.inl h)
        next st1 hstep =>
          injection h with h'
          subst h'
          exact vmStep_halted_sp _ _ _ _ h0 hstep
        next st1 hstep => exact absurd h (by simp)
        next e st1 hstep => exact absurd h (by simp)
      · split at h
        next st1 hstep => exact ih st1 st' (vmStep_next_sp _ _ _ _ h0 hstep) (Or.inr h)
        next st1 hstep => exact absurd h (by simp)
        next st1 hstep =>
          injection h with h'
          subst h'
          exact vmStep_finished_sp _ _ _ _ h0 hstep
        next e st1 hstep => exact absurd h (by simp)

/-- C7 (corrected): when a run from the initial state terminates normally
(`VM.Run` returns nil) the stack pointer at that moment is nonnegative —
this holds both for the `Halt` path (the `_HALT_` sentinel error, outcome
`halted`) and for the fall-out-of-the-loop path (empty call stack,
outcome `finished`).  The claim's "no other path ends a run normally" is
false: `Run` also returns nil when the call stack empties without any
`Halt`, as the counterexample's top-level `Return` program shows. -/
theorem c7_normal_termination_sp (B : Registry) (ops : List POp)
    (fuel : ℕ) (st : VMState)
    (h : runVM B ops fuel initVMState = .halted st ∨
      runVM B ops fuel initVMState = .finished st) :
    0 ≤ st.sp :=
  runVM_normal_sp B ops fuel initVMState st (by norm_num [initVMState]) h

/-- Closed instance of the C7 theorem: the one-instruction program
`Halt` halts after one step with stack pointer 0. -/
theorem c7_witness :
    0 ≤ (⟨List.replicate 8192 vnil, 0, [⟨1, 0, 0⟩], []⟩ : VMState).sp :=
  c7_normal_termination_sp emptyRegistry [POp.halt] 1
    ⟨List.replicate 8192 vnil, 0, [⟨1, 0, 0⟩], []⟩ (Or.inl rfl)

/-- C7 counterexample to "no other path ends a run normally": the
program consisting of a single top-level `Return` (no `Halt` anywhere)
pops the only frame; `VM.Run`'s outer loop then exits because the call
stack is empty and returns nil — a normal termination with no `Halt`
executed (outcome `finished`, after two steps). -/
theorem c7_counterexample :
    topLevelReturnProg.mapM (makeOp []) = .ok [POp.ret] ∧
    (∀ i ∈ topLevelReturnProg, i.op ≠ OpHalt) ∧
    runVM emptyRegistry [POp.ret] 3 initVMState =
      .finished ⟨List.replicate 8192 vnil, 0, [], []⟩ := by
  refine ⟨rfl, ?_, rfl⟩
  intro i hi
  rcases List.mem_singleton.mp hi with rfl
  decide
